import Mathlib

/-!
Verification of the gear-train simulator in `src/routes/gears/+page.svelte`.

Shallow embedding conventions:
* JavaScript numbers are modelled by `ℚ` (all quantities the claims touch are
  produced by field arithmetic on exact inputs); gear direction is an `Int`
  (the code only ever stores -1, 0, 1).
* The source compares Euclidean distances (`Math.sqrt`) against thresholds.
  To keep every definition executable over `ℚ` we carry the *squared*
  distance and decide `√s < b` as `0 < b ∧ s < b*b`, and `t < √s` as
  `t < 0 ∨ t*t < s`; both are equivalent to the real-number comparison for
  `0 ≤ s` (bridge lemmas below relate them to `Real.sqrt`).
* The in-place mutation of the `gears` array is modelled by functional
  updates (`List.map`) keyed by gear id; `Map`/`Set` objects become lists.
* The `while (queue.length > 0)` loops of `propagateMotion` and `markJammed`
  are modelled with an explicit fuel argument; `length + 1` fuel is always
  sufficient (each iteration consumes one queued id and every id is enqueued
  at most once thanks to the visited set), which is proved where needed.
* Cosmetic fields (`angle`, `color`, `label`) and the selection id play no
  role in any claim and are omitted from the record.
-/

namespace Gears

/-- The `GearType` union from the source:
`'motor' | 'gear' | 'sheep' | 'slow-motor' | 'flywheel'`. -/
inductive GearType where
  | motor
  | gear
  | sheep
  | slowMotor
  | flywheel
deriving DecidableEq, Repr

/-- The `Gear` record (cosmetic fields `angle`, `color`, `label` omitted). -/
structure Gear where
  id : Nat
  type : GearType
  teeth : Nat
  x : ℚ
  y : ℚ
  rpm : ℚ
  direction : Int
  jammed : Bool
  level : Nat
deriving DecidableEq, Repr

/-- `const MODULE = 5`. -/
def MODULE : ℚ := 5

/-- `const MOTOR_RPM = 60`. -/
def MOTOR_RPM : ℚ := 60

/-- `const SLOW_MOTOR_RPM = 15`. -/
def SLOW_MOTOR_RPM : ℚ := 15

/-- `const SNAP_TOLERANCE = 15`. -/
def SNAP_TOLERANCE : ℚ := 15

/-- `pitchRadius(teeth) = (teeth * MODULE) / 2`. -/
def pitchRadius (teeth : Nat) : ℚ := ((teeth : ℚ) * MODULE) / 2

/-- `isMotorType`: `type === 'motor' || type === 'slow-motor'`. -/
def isMotorType : GearType → Bool
  | .motor => true
  | .slowMotor => true
  | _ => false

/-- `getMotorRpm`: `type === 'slow-motor' ? SLOW_MOTOR_RPM : MOTOR_RPM`. -/
def getMotorRpm (t : GearType) : ℚ :=
  if t = .slowMotor then SLOW_MOTOR_RPM else MOTOR_RPM

/-- Squared Euclidean distance between two points; the source computes
`Math.sqrt(dx*dx + dy*dy)` and we keep the radicand. -/
def sqDist (x y x' y' : ℚ) : ℚ := (x - x') * (x - x') + (y - y') * (y - y')

/-- Squared `actualDistance(g1, g2)`. -/
def distSq (g1 g2 : Gear) : ℚ := sqDist g1.x g1.y g2.x g2.y

/-- Decides `√s < b` (for `0 ≤ s`). -/
def sqrtLtB (s b : ℚ) : Bool := decide (0 < b ∧ s < b * b)

/-- Decides `b < √s` (for `0 ≤ s`). -/
def ltSqrtB (b s : ℚ) : Bool := decide (b < 0 ∨ b * b < s)

/-- Decides `|√s - c| < eps` (for `0 ≤ s`). -/
def absSqrtSubLtB (s c eps : ℚ) : Bool :=
  sqrtLtB s (c + eps) && ltSqrtB (c - eps) s

/-- Decides `|√s - c| > eps` (for `0 ≤ s`). -/
def absSqrtSubGtB (s c eps : ℚ) : Bool :=
  ltSqrtB (c + eps) s || sqrtLtB s (c - eps)

/-- `meshDistance(g1, g2)`: sum of pitch radii. -/
def meshDistance (g1 g2 : Gear) : ℚ := pitchRadius g1.teeth + pitchRadius g2.teeth

/-- `areMeshed(g1, g2)`: same level and
`|actualDistance - meshDistance| < 3`. -/
def areMeshed (g1 g2 : Gear) : Bool :=
  decide (g1.level = g2.level) && absSqrtSubLtB (distSq g1 g2) (meshDistance g1 g2) 3

/-- `areAxleConnected(g1, g2)`: different levels and distance `< 3`. -/
def areAxleConnected (g1 g2 : Gear) : Bool :=
  decide (g1.level ≠ g2.level) && sqrtLtB (distSq g1 g2) 3

/-- Eligibility test inside the `findSnapPosition` loop (lines 119-122):
the candidate passes iff `|dist - ideal| < SNAP_TOLERANCE + ideal*0.3`
and not `dist < outerSum * 0.5`, where the source's `outerSum` is the sum
of the two *pitch* radii. -/
def snapEligible (teeth : Nat) (x y : ℚ) (other : Gear) : Bool :=
  let ideal := pitchRadius teeth + pitchRadius other.teeth
  let s := sqDist x y other.x other.y
  let outerSum := pitchRadius teeth + pitchRadius other.teeth
  absSqrtSubLtB s ideal (SNAP_TOLERANCE + ideal * (3 / 10)) &&
    !(sqrtLtB s (outerSum * (1 / 2)))

/-- Outer radius of a drawn gear, from `drawGear` (line 275):
`outerR = pitchRadius(teeth) + MODULE * 0.8`. -/
def outerRadius (teeth : Nat) : ℚ := pitchRadius teeth + MODULE * (8 / 10)

/-- The overlap-rejection condition as the specification words it:
actual distance less than half the sum of the two gears' *outer* radii.
This predicate follows the spec's words (for comparison with the source's
`snapEligible` above, which uses pitch radii); it is not code from the
repository. -/
def specSnapOverlapReject (teeth : Nat) (x y : ℚ) (other : Gear) : Bool :=
  sqrtLtB (sqDist x y other.x other.y)
    ((outerRadius teeth + outerRadius other.teeth) * (1 / 2))

/-- `wouldOverlap(teeth, x, y, excludeId, level)` over an explicit gear
list: true iff some other same-level gear is closer than
`0.8 * (r + otherR)` while not within `3` of the exact mesh distance. -/
def wouldOverlap (teeth : Nat) (x y : ℚ) (excludeId : Int) (level : Nat)
    (gs : List Gear) : Bool :=
  gs.any fun other =>
    if (other.id : Int) = excludeId then false
    else if other.level ≠ level then false
    else
      let r := pitchRadius teeth
      let otherR := pitchRadius other.teeth
      let s := sqDist x y other.x other.y
      let minDist := (r + otherR) * (4 / 5)
      let meshDist := r + otherR
      sqrtLtB s minDist && absSqrtSubGtB s meshDist 3

/-- One tagged adjacency entry: `{ id, type: 'mesh' | 'axle' }`
(`mesh = true` for a mesh edge, `false` for an axle edge). -/
structure Link where
  nid : Nat
  mesh : Bool
deriving DecidableEq, Repr

/-- `gearMap.get(i)`: first gear with the given id. -/
def findGear (gs : List Gear) (i : Nat) : Option Gear :=
  gs.find? fun g => decide (g.id = i)

/-- The adjacency list of gear id `i`, as built by the double loop of
`propagateMotion` (lines 186-198): every other gear of the list joined by
`areMeshed` (mesh edge) or else `areAxleConnected` (axle edge), in list
order.  The source fills `adj` over index pairs `i < j`, pushing both
directions, which yields exactly the partners in array order for each
node; `areMeshed`/`areAxleConnected` are symmetric, so checking
`areMeshed g h` here matches the source's single-orientation check. -/
def adjOf (gs : List Gear) (i : Nat) : List Link :=
  match findGear gs i with
  | none => []
  | some g =>
      gs.filterMap fun h =>
        if h.id = g.id then none
        else if areMeshed g h then some ⟨h.id, true⟩
        else if areAxleConnected g h then some ⟨h.id, false⟩
        else none

/-- Functional update for `g.rpm = r; g.direction = d` on the gear(s) with
id `i`. -/
def setMotion (gs : List Gear) (i : Nat) (r : ℚ) (d : Int) : List Gear :=
  gs.map fun g => if g.id = i then { g with rpm := r, direction := d } else g

/-- Functional update for `gear.jammed = true; gear.rpm = 0;
gear.direction = 0` on the gear(s) with id `i`. -/
def setJam (gs : List Gear) (i : Nat) : List Gear :=
  gs.map fun g =>
    if g.id = i then { g with rpm := 0, direction := 0, jammed := true } else g

/-- The reset pass of `propagateMotion` (lines 179-183). -/
def resetGear (g : Gear) : Gear := { g with rpm := 0, direction := 0, jammed := false }

/-- Reset every gear's derived state. -/
def resetAll (gs : List Gear) : List Gear := gs.map resetGear

/-- Visited/queue update for one adjacency entry of the flood fill in
`markJammed` (lines 263-268): enqueue unvisited neighbours. -/
def floodStep (p : List Nat × List Nat) (l : Link) : List Nat × List Nat :=
  if l.nid ∈ p.1 then p else (l.nid :: p.1, p.2 ++ [l.nid])

/-- The `while` loop of `markJammed`: dequeue an id, zero and flag that
gear, enqueue its unvisited neighbours.  `σ` is the gear list the
adjacency map was built from; the first argument is fuel. -/
def jamLoop (σ : List Gear) : Nat → List Gear → List Nat → List Nat →
    List Gear × List Nat
  | 0, gs, visited, _ => (gs, visited)
  | _ + 1, gs, visited, [] => (gs, visited)
  | fuel + 1, gs, visited, i :: queue =>
      let gs1 := setJam gs i
      let p := (adjOf σ i).foldl floodStep (visited, queue)
      jamLoop σ fuel gs1 p.1 p.2

/-- `markJammed(startId, adj, gearMap)`: flood-fill from `startId`. -/
def markJammed (σ : List Gear) (startId : Nat) (gs : List Gear) : List Gear :=
  (jamLoop σ (σ.length + 1) gs [startId] [startId]).1

/-- The visited-set evolution of a flood fill on its own (used to define a
computable reachability check; it mirrors `jamLoop` without the gear
updates). -/
def floodLoop (σ : List Gear) : Nat → List Nat → List Nat → List Nat
  | 0, visited, _ => visited
  | _ + 1, visited, [] => visited
  | fuel + 1, visited, i :: queue =>
      let p := (adjOf σ i).foldl floodStep (visited, queue)
      floodLoop σ fuel p.1 p.2

/-- All ids reachable from `i` along mesh/axle edges of `σ`. -/
def reachSet (σ : List Gear) (i : Nat) : List Nat :=
  floodLoop σ (σ.length + 1) [i] [i]

/-- BFS state of `propagateMotion`: the evolving gear list, the shared
visited set and the current queue. -/
structure BfsSt where
  gs : List Gear
  visited : List Nat
  queue : List Nat
deriving Repr

/-- The body of the `for (const link of adj.get(currentId)!)` loop
(lines 220-248).  `current` and `neighbor` are re-read from the evolving
list at each step because the source holds live references that see the
mutations made by `markJammed`. -/
def stepLink (σ : List Gear) (motorId currentId : Nat) (st : BfsSt)
    (l : Link) : BfsSt :=
  match findGear st.gs currentId, findGear st.gs l.nid with
  | some current, some neighbor =>
      let expDir : Int := if l.mesh then -current.direction else current.direction
      let expRpm : ℚ :=
        if l.mesh then current.rpm * (current.teeth : ℚ) / (neighbor.teeth : ℚ)
        else current.rpm
      if l.nid ∈ st.visited then
        if neighbor.direction ≠ expDir then
          { st with gs := markJammed σ motorId st.gs }
        else st
      else
        { gs := setMotion st.gs l.nid expRpm expDir,
          visited := l.nid :: st.visited,
          queue := st.queue ++ [l.nid] }
  | _, _ => st

/-- The `while (queue.length > 0)` loop of one motor's BFS
(lines 216-249), with explicit fuel. -/
def bfsLoop (σ : List Gear) (motorId : Nat) : Nat → BfsSt → BfsSt
  | 0, st => st
  | fuel + 1, st =>
      match st.queue with
      | [] => st
      | c :: rest =>
          let st1 := (adjOf σ c).foldl (stepLink σ motorId c)
            ⟨st.gs, st.visited, rest⟩
          bfsLoop σ motorId fuel st1

/-- One iteration of `for (const motor of motors)` (lines 208-250):
skip visited motors, otherwise seed rpm/direction and run the BFS. -/
def runMotor (σ : List Gear) (st : List Gear × List Nat) (m : Gear) :
    List Gear × List Nat :=
  if m.id ∈ st.2 then st
  else
    let out := bfsLoop σ m.id (σ.length + 1)
      ⟨setMotion st.1 m.id (getMotorRpm m.type) 1, m.id :: st.2, [m.id]⟩
    (out.gs, out.visited)

/-- `propagateMotion()`: reset, build adjacency (captured as `σ`, the
post-reset list all static data is read from), then BFS from each motor
with a shared visited set. -/
def propagateMotion (gs : List Gear) : List Gear :=
  let σ := resetAll gs
  ((σ.filter fun g => isMotorType g.type).foldl (runMotor σ) (σ, [])).1

/-- The derived kinematic state of a gear: id, rpm, direction, jammed. -/
def dyn (g : Gear) : Nat × ℚ × Int × Bool := (g.id, g.rpm, g.direction, g.jammed)

/-- The static data of a gear: everything `propagateMotion` never writes. -/
def staticOf (g : Gear) : Nat × GearType × Nat × ℚ × ℚ × Nat :=
  (g.id, g.type, g.teeth, g.x, g.y, g.level)

/-- `edgeOf σ j k`: the adjacency list of `j` contains an edge to `k`. -/
def edgeOf (σ : List Gear) (j k : Nat) : Prop :=
  ∃ l ∈ adjOf σ j, l.nid = k

/-- `Reaches σ i j`: `j` is connected to `i` by a chain of mesh/axle
edges of `σ` (reflexive-transitive closure of `edgeOf`). -/
inductive Reaches (σ : List Gear) : Nat → Nat → Prop
  | refl (i : Nat) : Reaches σ i i
  | tail {i j k : Nat} : Reaches σ i j → edgeOf σ j k → Reaches σ i k

/-- `MotorReach σ i`: some motor-kind gear of `σ` reaches id `i`. -/
def MotorReach (σ : List Gear) (i : Nat) : Prop :=
  ∃ m ∈ σ, isMotorType m.type = true ∧ Reaches σ m.id i

-- --- Layout mutation API (`handleCanvasPointerUp` palette branch,
-- `deleteSelected`, `clearAll`) ---

/-- Initial canvas width (`canvasWidth = $state(800)`). -/
def canvasWidth : ℚ := 800

/-- Initial canvas height (`canvasHeight = $state(500)`). -/
def canvasHeight : ℚ := 500

/-- The module state the claims touch: the gear collection and the id
counter (`nextId`).  The selection id is cosmetic and omitted. -/
structure AppState where
  gears : List Gear
  nextId : Nat
deriving DecidableEq, Repr

/-- A fresh gear as built at lines 750-763 (`rpm: 0, direction: 0,
jammed: false`). -/
def mkGear (i : Nat) (t : GearType) (teeth : Nat) (x y : ℚ) (level : Nat) : Gear :=
  ⟨i, t, teeth, x, y, 0, 0, false, level⟩

/-- Committing a palette drop at the (post-snap) position `(x, y)`
(lines 747-768): bounds check, overlap check, then append with the next
id and re-propagate.  Returns the new state and the assigned id (`none`
when the placement is rejected).  The snap solver runs before this and
only chooses `(x, y)`; it is not part of the commit decision. -/
def addGear (st : AppState) (t : GearType) (teeth : Nat) (x y : ℚ)
    (level : Nat) : AppState × Option Nat :=
  let pr := pitchRadius teeth
  if pr < x ∧ x < canvasWidth - pr ∧ pr < y ∧ y < canvasHeight - pr then
    if wouldOverlap teeth x y (-1) level st.gears then (st, none)
    else
      ({ gears := propagateMotion (st.gears ++ [mkGear st.nextId t teeth x y level]),
         nextId := st.nextId + 1 }, some st.nextId)
  else (st, none)

/-- `deleteSelected()` for an explicit id: filter it out and re-propagate
(`nextId` is untouched). -/
def deleteGear (st : AppState) (i : Nat) : AppState :=
  { gears := propagateMotion (st.gears.filter fun g => decide (g.id ≠ i)),
    nextId := st.nextId }

/-- `clearAll()`: empty the collection and reset the id counter to 1. -/
def clearAll (_st : AppState) : AppState := { gears := [], nextId := 1 }

/-- A session operation on the mutation API. -/
inductive Op where
  | add (t : GearType) (teeth : Nat) (x y : ℚ) (level : Nat)
  | del (i : Nat)
  | clear
deriving DecidableEq, Repr

/-- The state a session starts from (`gears = []`, `nextId = 1`). -/
def initState : AppState := ⟨[], 1⟩

/-- Apply one session operation, logging the id handed out by a
successful add. -/
def applyOp (p : AppState × List Nat) (op : Op) : AppState × List Nat :=
  match op with
  | .add t teeth x y level =>
      let r := addGear p.1 t teeth x y level
      (r.1, p.2 ++ r.2.toList)
  | .del i => (deleteGear p.1 i, p.2)
  | .clear => (clearAll p.1, p.2)

/-- Run a session, logging every id handed out by a successful add. -/
def runOps (st : AppState) (ops : List Op) : AppState × List Nat :=
  ops.foldl applyOp (st, [])

-- --- Concrete configurations used as test inputs ---

/-- A 12-tooth motor meshed (exactly, distance `90 = 30 + 60`) to a
24-tooth gear. -/
def exC1 : List Gear :=
  [mkGear 1 .motor 12 0 0 1, mkGear 2 .gear 24 90 0 1]

/-- A mesh triangle: motor, A and B pairwise meshed (sides `60`, `60`,
`√3604 ≈ 60.03`, all within the `< 3` mesh tolerance of the ideal `60`). -/
def triGears : List Gear :=
  [mkGear 1 .motor 12 0 0 1, mkGear 2 .gear 12 60 0 1, mkGear 3 .gear 12 30 52 1]

/-- Two same-direction paths with different implied rpm reach gear 6:
`motor -mesh- 2 -axle- 4 -mesh- 6` implies rpm `60*48/12 = 240`, while
`motor -mesh- 3 -axle- 5 -mesh- 6` implies rpm `60*12/12 = 60`; both
imply direction `+1` (two mesh reversals each). -/
def exC9 : List Gear :=
  [mkGear 1 .motor 12 0 0 1, mkGear 2 .gear 12 60 0 1,
   mkGear 3 .gear 12 (-60) 0 1, mkGear 4 .gear 48 60 0 2,
   mkGear 5 .gear 12 (-60) 0 2, mkGear 6 .gear 12 (-315/4) 57 2]

/-- A chain motor (1) - bridge (2) - tail (3); gear 2 is the sole bridge
between the motor and gear 3. -/
def chain3 : List Gear :=
  [mkGear 1 .motor 12 0 0 1, mkGear 2 .gear 12 60 0 1, mkGear 3 .gear 12 120 0 1]

/-- A 12-tooth candidate gear sitting 32 units from the origin: closer
than half the outer-radii sum (`34`) but not closer than half the
pitch-radii sum (`30`), and within snap tolerance of the ideal `60`. -/
def gC6 : Gear := mkGear 7 .gear 12 32 0 1

/-- A session that reuses id 1: a successful add, `clearAll`, and a
second successful add. -/
def opsC8 : List Op :=
  [.add .motor 12 100 100 1, .clear, .add .motor 12 100 100 1]

/-- A clear-free session: two adds, a delete, another add. -/
def opsC8w : List Op :=
  [.add .motor 12 100 100 1, .add .gear 16 300 300 1, .del 1,
   .add .gear 20 100 100 1]

/-- One motor already placed at `(100, 100)`. -/
def stC7 : AppState := ⟨[mkGear 1 .motor 12 100 100 1], 2⟩

-- --- Helper definitions for the correctness development ---

/-- Rebuild a gear from its static data with reset derived state. -/
def ofStatic (s : Nat × GearType × Nat × ℚ × ℚ × Nat) : Gear :=
  ⟨s.1, s.2.1, s.2.2.1, s.2.2.2.1, s.2.2.2.2.1, 0, 0, false, s.2.2.2.2.2⟩

/-- The gear as left by one `markJammed` write. -/
def jamGear (g : Gear) : Gear := { g with rpm := 0, direction := 0, jammed := true }

/-- Replace the kind of the non-motor gear with id `target` by `nt`
(used to state that non-motor kinds are irrelevant to propagation). -/
def relabel (target : Nat) (nt : GearType) (g : Gear) : Gear :=
  if isMotorType g.type = false ∧ g.id = target then { g with type := nt } else g

/-- The ids of a gear list, in order. -/
def gearIds (gs : List Gear) : List Nat := gs.map Gear.id

/-- Termination measure of the BFS/flood loops: unvisited gear ids plus
pending queue entries.  Every loop iteration strictly decreases it. -/
def bfsMeasure (σ : List Gear) (visited queue : List Nat) : Nat :=
  ((gearIds σ).toFinset \ visited.toFinset).card + queue.length

/-- Every fully processed visited id has all its neighbours visited. -/
def SemiClosed (σ : List Gear) (visited queue : List Nat) : Prop :=
  ∀ i ∈ visited, i ∉ queue → ∀ l ∈ adjOf σ i, l.nid ∈ visited

/-- `SemiClosed` with one id (the one being expanded) exempted. -/
def SemiClosedExc (σ : List Gear) (c : Nat) (visited queue : List Nat) : Prop :=
  ∀ i ∈ visited, i ∉ queue → i ≠ c → ∀ l ∈ adjOf σ i, l.nid ∈ visited

/-- The frame relation of `markJammed`: each gear is untouched or, when
reachable from the flood root, jam-zeroed. -/
def JamRel (σ : List Gear) (start : Nat) (g g' : Gear) : Prop :=
  g' = g ∨ (Reaches σ start g.id ∧ g' = jamGear g)

/-- The two jam invariants of `propagateMotion`: jammed gears are zeroed,
and jammedness is closed under mesh/axle adjacency. -/
structure JamInv (σ gs : List Gear) : Prop where
  p1 : ∀ g ∈ gs, g.jammed = true → g.rpm = 0 ∧ g.direction = 0
  p2 : ∀ g ∈ gs, g.jammed = true → ∀ l ∈ adjOf σ g.id, ∀ h ∈ gs,
    h.id = l.nid → h.jammed = true

/-- Invariant of one motor's BFS, relative to the jam state `J0` and the
visited set `V0` found when the motor was seeded. -/
structure BfsInv (σ : List Gear) (motorId : Nat) (J0 : Nat → Prop)
    (V0 : List Nat) (st : BfsSt) : Prop where
  sinv : st.gs.map staticOf = σ.map staticOf
  jam : JamInv σ st.gs
  qsubv : ∀ i ∈ st.queue, i ∈ st.visited
  qids : ∀ i ∈ st.queue, i ∈ gearIds σ
  qreach : ∀ i ∈ st.queue, Reaches σ motorId i
  unreach : ∀ g ∈ st.gs, ¬ MotorReach σ g.id →
    g.rpm = 0 ∧ g.direction = 0 ∧ g.jammed = false
  jamGrow : ∀ g ∈ st.gs, g.jammed = true → J0 g.id ∨ Reaches σ motorId g.id
  visMono : ∀ i ∈ V0, i ∈ st.visited

/-- Bookkeeping facts relating a BFS state to its successor after
processing the adjacency entries `nids`. -/
structure StepFacts (σ : List Gear) (motorId : Nat) (J0 : Nat → Prop)
    (V0 : List Nat) (nids : List Nat) (st st' : BfsSt) : Prop where
  inv : BfsInv σ motorId J0 V0 st'
  vmono : ∀ x ∈ st.visited, x ∈ st'.visited
  qmono : ∀ x ∈ st.queue, x ∈ st'.queue
  vsrc : ∀ x ∈ st'.visited, x ∈ st.visited ∨ x ∈ nids
  qsrc : ∀ x ∈ st'.queue, x ∈ st.queue ∨ x ∈ nids
  newq : ∀ x ∈ st'.visited, x ∈ st.visited ∨ x ∈ st'.queue
  meas : bfsMeasure σ st'.visited st'.queue ≤ bfsMeasure σ st.visited st.queue

/-- Invariant holding between the per-motor BFS runs of
`propagateMotion`. -/
structure MotorInv (σ : List Gear) (p : List Gear × List Nat) : Prop where
  sinv : p.1.map staticOf = σ.map staticOf
  jam : JamInv σ p.1
  closed : ∀ i ∈ p.2, ∀ l ∈ adjOf σ i, l.nid ∈ p.2
  jamVis : ∀ g ∈ p.1, g.jammed = true → g.id ∈ p.2
  unreach : ∀ g ∈ p.1, ¬ MotorReach σ g.id →
    g.rpm = 0 ∧ g.direction = 0 ∧ g.jammed = false

end Gears

namespace Gears

-- --- Bridge lemmas: the √-free comparisons used by the embedding are
-- equivalent to the real-number comparisons the source makes ---

lemma sqDist_nonneg (x y x' y' : ℚ) : 0 ≤ sqDist x y x' y' :=
  add_nonneg (mul_self_nonneg _) (mul_self_nonneg _)

lemma sqrtLtB_iff (s b : ℚ) (hs : 0 ≤ s) :
    sqrtLtB s b = true ↔ Real.sqrt (s : ℝ) < (b : ℝ) := by
  unfold sqrtLtB
  rw [decide_eq_true_iff]
  constructor
  · rintro ⟨hb, hsb⟩
    have hb' : (0 : ℝ) < (b : ℝ) := by exact_mod_cast hb
    rw [Real.sqrt_lt' hb', pow_two]
    exact_mod_cast hsb
  · intro h
    have hb' : (0 : ℝ) < (b : ℝ) := lt_of_le_of_lt (Real.sqrt_nonneg _) h
    rw [Real.sqrt_lt' hb', pow_two] at h
    exact ⟨by exact_mod_cast hb', by exact_mod_cast h⟩

lemma ltSqrtB_iff (b s : ℚ) (hs : 0 ≤ s) :
    ltSqrtB b s = true ↔ (b : ℝ) < Real.sqrt (s : ℝ) := by
  unfold ltSqrtB
  rw [decide_eq_true_iff]
  constructor
  · rintro (hb | hbs)
    · exact lt_of_lt_of_le (by exact_mod_cast hb) (Real.sqrt_nonneg _)
    · rcases lt_or_le b 0 with h0 | h0
      · exact lt_of_lt_of_le (by exact_mod_cast h0) (Real.sqrt_nonneg _)
      · have h0' : (0 : ℝ) ≤ (b : ℝ) := by exact_mod_cast h0
        rw [Real.lt_sqrt h0', pow_two]
        exact_mod_cast hbs
  · intro h
    rcases lt_or_le b 0 with h0 | h0
    · exact Or.inl h0
    · right
      have h0' : (0 : ℝ) ≤ (b : ℝ) := by exact_mod_cast h0
      rw [Real.lt_sqrt h0', pow_two] at h
      exact_mod_cast h

lemma absSqrtSubLtB_iff (s c eps : ℚ) (hs : 0 ≤ s) :
    absSqrtSubLtB s c eps = true ↔
      |Real.sqrt (s : ℝ) - (c : ℝ)| < (eps : ℝ) := by
  unfold absSqrtSubLtB
  rw [Bool.and_eq_true, sqrtLtB_iff _ _ hs, ltSqrtB_iff _ _ hs, abs_sub_lt_iff]
  push_cast
  constructor
  · rintro ⟨h1, h2⟩
    exact ⟨by linarith, by linarith⟩
  · rintro ⟨h1, h2⟩
    exact ⟨by linarith, by linarith⟩

lemma absSqrtSubGtB_iff (s c eps : ℚ) (hs : 0 ≤ s) :
    absSqrtSubGtB s c eps = true ↔
      (eps : ℝ) < |Real.sqrt (s : ℝ) - (c : ℝ)| := by
  unfold absSqrtSubGtB
  rw [Bool.or_eq_true, sqrtLtB_iff _ _ hs, ltSqrtB_iff _ _ hs, lt_abs]
  push_cast
  constructor
  · rintro (h | h)
    · left
      linarith
    · right
      linarith
  · rintro (h | h)
    · left
      linarith
    · right
      linarith

end Gears

namespace Gears

-- --- C6 ---

/-- C6 counterexample: at distance exactly 32 between a 12-tooth candidate
and a 12-tooth gear, the claim's overlap rule (distance below half the
outer-radii sum, `34`) demands rejection, yet `findSnapPosition` treats
the candidate as eligible (its test uses half the *pitch*-radii sum,
`30`). -/
theorem C6_counterexample :
    snapEligible 12 0 0 gC6 = true ∧ specSnapOverlapReject 12 0 0 gC6 = true := by
  constructor
  · with_unfolding_all decide
  · with_unfolding_all decide

/-- C6 (amended): a snap candidate is eligible iff the actual center
distance is within `SNAP_TOLERANCE + ideal*0.3` of the ideal mesh
distance and the actual distance is not less than half the sum of the two
gears' PITCH radii (the source's `outerSum` variable holds pitch radii,
not drawn outer radii). -/
theorem C6_amended (teeth : Nat) (x y : ℚ) (other : Gear) :
    snapEligible teeth x y other = true ↔
      (|Real.sqrt ((sqDist x y other.x other.y : ℚ) : ℝ) -
          ((pitchRadius teeth + pitchRadius other.teeth : ℚ) : ℝ)| <
        ((SNAP_TOLERANCE + (pitchRadius teeth + pitchRadius other.teeth) * (3 / 10) : ℚ) : ℝ) ∧
      ¬ Real.sqrt ((sqDist x y other.x other.y : ℚ) : ℝ) <
          (((pitchRadius teeth + pitchRadius other.teeth) * (1 / 2) : ℚ) : ℝ)) := by
  have hs := sqDist_nonneg x y other.x other.y
  simp only [snapEligible, Bool.and_eq_true, Bool.not_eq_true']
  rw [absSqrtSubLtB_iff _ _ _ hs]
  constructor
  · rintro ⟨h1, h2⟩
    refine ⟨h1, ?_⟩
    intro hlt
    rw [← sqrtLtB_iff _ _ hs] at hlt
    rw [hlt] at h2
    cases h2
  · rintro ⟨h1, h2⟩
    refine ⟨h1, ?_⟩
    rw [← Bool.not_eq_true]
    intro hb
    exact h2 ((sqrtLtB_iff _ _ hs).mp hb)

end Gears

namespace Gears

-- --- C1 ---

/-- C1: traversing an edge from a visited gear `current` to an unvisited
`neighbor` assigns the neighbor `-current.direction` and
`current.rpm * current.teeth / neighbor.teeth` on a mesh edge, and
exactly `current.direction` and `current.rpm` on an axle edge; the gear
is marked visited and enqueued.  In particular a 12-tooth 60-rpm motor
meshed to a 24-tooth gear drives it at 30 rpm with direction -1. -/
theorem C1_edge_assignment :
    (∀ (σ : List Gear) (motorId c : Nat) (st : BfsSt) (l : Link)
        (current neighbor : Gear),
      c ∈ st.visited →
      findGear st.gs c = some current →
      findGear st.gs l.nid = some neighbor →
      l.nid ∉ st.visited →
      stepLink σ motorId c st l =
        ⟨setMotion st.gs l.nid
            (if l.mesh then current.rpm * (current.teeth : ℚ) / (neighbor.teeth : ℚ)
             else current.rpm)
            (if l.mesh then -current.direction else current.direction),
          l.nid :: st.visited, st.queue ++ [l.nid]⟩ ∧
      (∀ h ∈ (stepLink σ motorId c st l).gs, h.id = l.nid →
        h.direction = (if l.mesh then -current.direction else current.direction) ∧
        h.rpm = (if l.mesh then current.rpm * (current.teeth : ℚ) / (neighbor.teeth : ℚ)
                 else current.rpm))) ∧
    (propagateMotion exC1).map dyn = [(1, 60, 1, false), (2, 30, -1, false)] := by
  constructor
  · intro σ motorId c st l current neighbor _hc hcur hnb hnv
    have hstep : stepLink σ motorId c st l =
        ⟨setMotion st.gs l.nid
            (if l.mesh then current.rpm * (current.teeth : ℚ) / (neighbor.teeth : ℚ)
             else current.rpm)
            (if l.mesh then -current.direction else current.direction),
          l.nid :: st.visited, st.queue ++ [l.nid]⟩ := by
      simp only [stepLink, hcur, hnb, hnv, if_neg, ite_false]
    refine ⟨hstep, ?_⟩
    intro h hmem hid
    rw [hstep] at hmem
    simp only [setMotion, List.mem_map] at hmem
    obtain ⟨g, _hg, rfl⟩ := hmem
    by_cases hgid : g.id = l.nid
    · rw [if_pos hgid]
      exact ⟨rfl, rfl⟩
    · rw [if_neg hgid] at hid ⊢
      exact absurd hid hgid
  · with_unfolding_all decide

-- --- C9 ---

/-- C9: reaching an already-visited gear whose direction agrees with the
direction implied by the edge changes nothing, even when the implied rpm
differs: no jam is flagged and the neighbor keeps its earlier rpm.  In
the concrete train, gear 6 is reached first through the 48-tooth idler
(rpm 240) and then through a 12-tooth path implying rpm 60; it keeps 240
and nothing is jammed. -/
theorem C9_same_direction_no_jam :
    (∀ (σ : List Gear) (motorId c : Nat) (st : BfsSt) (l : Link)
        (current neighbor : Gear),
      findGear st.gs c = some current →
      findGear st.gs l.nid = some neighbor →
      l.nid ∈ st.visited →
      neighbor.direction =
        (if l.mesh then -current.direction else current.direction) →
      stepLink σ motorId c st l = st) ∧
    (propagateMotion exC9).map dyn =
      [(1, 60, 1, false), (2, 60, -1, false), (3, 60, -1, false),
       (4, 60, -1, false), (5, 60, -1, false), (6, 240, 1, false)] := by
  constructor
  · intro σ motorId c st l current neighbor hcur hnb hv hdir
    simp only [stepLink, hcur, hnb, hv, if_true, hdir, ne_eq, not_true_eq_false,
      ite_self, if_false]
  · with_unfolding_all decide

end Gears

namespace Gears

/-- Witness for C1 at a concrete input: the seeded motor of `exC1`
traverses its mesh link to the unvisited 24-tooth gear. -/
theorem C1_edge_assignment_witness :
    stepLink exC1 1 1
      ⟨[⟨1, .motor, 12, 0, 0, 60, 1, false, 1⟩,
        ⟨2, .gear, 24, 90, 0, 0, 0, false, 1⟩], [1], []⟩ ⟨2, true⟩ =
      ⟨setMotion
          [⟨1, .motor, 12, 0, 0, 60, 1, false, 1⟩,
           ⟨2, .gear, 24, 90, 0, 0, 0, false, 1⟩] 2
          (if (Link.mk 2 true).mesh then (60 : ℚ) * (12 : ℚ) / (24 : ℚ) else 60)
          (if (Link.mk 2 true).mesh then -(1 : Int) else 1),
        2 :: [1], [] ++ [2]⟩ :=
  (C1_edge_assignment.1 exC1 1 1
    ⟨[⟨1, .motor, 12, 0, 0, 60, 1, false, 1⟩,
      ⟨2, .gear, 24, 90, 0, 0, 0, false, 1⟩], [1], []⟩ ⟨2, true⟩
    ⟨1, .motor, 12, 0, 0, 60, 1, false, 1⟩
    ⟨2, .gear, 24, 90, 0, 0, 0, false, 1⟩
    (by decide) (by rfl) (by rfl) (by decide)).1

/-- Witness for C9 at a concrete input: the 12-tooth gear's back link to
the already-visited motor implies the direction the motor already has,
so the step is a no-op. -/
theorem C9_same_direction_no_jam_witness :
    stepLink [] 1 2
      ⟨[⟨1, .motor, 12, 0, 0, 60, 1, false, 1⟩,
        ⟨2, .gear, 12, 60, 0, 60, -1, false, 1⟩], [1, 2], []⟩ ⟨1, true⟩ =
      ⟨[⟨1, .motor, 12, 0, 0, 60, 1, false, 1⟩,
        ⟨2, .gear, 12, 60, 0, 60, -1, false, 1⟩], [1, 2], []⟩ :=
  C9_same_direction_no_jam.1 [] 1 2
    ⟨[⟨1, .motor, 12, 0, 0, 60, 1, false, 1⟩,
      ⟨2, .gear, 12, 60, 0, 60, -1, false, 1⟩], [1, 2], []⟩ ⟨1, true⟩
    ⟨2, .gear, 12, 60, 0, 60, -1, false, 1⟩
    ⟨1, .motor, 12, 0, 0, 60, 1, false, 1⟩
    (by rfl) (by rfl) (by decide) (by decide)

-- --- C7 ---

/-- C7: committing a new gear at a position whose distance to some
existing same-level gear is below `0.8` times the sum of their pitch
radii while more than `3` away from the exact mesh distance is rejected:
`addGear` returns the state unchanged (same collection, same `nextId`)
and reports `none`. -/
theorem C7_overlap_rejected (st : AppState) (t : GearType) (teeth : Nat)
    (x y : ℚ) (level : Nat) (other : Gear)
    (hmem : other ∈ st.gears) (hlv : other.level = level)
    (hclose : Real.sqrt ((sqDist x y other.x other.y : ℚ) : ℝ) <
      (((pitchRadius teeth + pitchRadius other.teeth) * (4 / 5) : ℚ) : ℝ))
    (hfar : (3 : ℝ) < |Real.sqrt ((sqDist x y other.x other.y : ℚ) : ℝ) -
      ((pitchRadius teeth + pitchRadius other.teeth : ℚ) : ℝ)|) :
    addGear st t teeth x y level = (st, none) := by
  have hs := sqDist_nonneg x y other.x other.y
  have hov : wouldOverlap teeth x y (-1) level st.gears = true := by
    unfold wouldOverlap
    rw [List.any_eq_true]
    refine ⟨other, hmem, ?_⟩
    have hid : ¬ ((other.id : Int) = (-1 : Int)) := by omega
    rw [if_neg hid]
    rw [if_neg (by rw [hlv]; exact fun hne => hne rfl)]
    rw [Bool.and_eq_true, sqrtLtB_iff _ _ hs, absSqrtSubGtB_iff _ _ _ hs]
    constructor
    · exact hclose
    · exact_mod_cast hfar
  unfold addGear
  simp [hov]

/-- Witness for C7 at a concrete input: dropping a 12-tooth gear 40 units
above the motor of `stC7` (closer than `0.8 * 60 = 48`, and `20 > 3` away
from the ideal mesh distance `60`) is rejected without touching the
state. -/
theorem C7_overlap_rejected_witness :
    addGear stC7 .gear 12 100 140 1 = (stC7, none) :=
  C7_overlap_rejected stC7 .gear 12 100 140 1 (mkGear 1 .motor 12 100 100 1)
    (by decide)
    (by rfl)
    (by
      rw [← sqrtLtB_iff _ _ (sqDist_nonneg _ _ _ _)]
      with_unfolding_all decide)
    (by
      rw [show (3 : ℝ) = ((3 : ℚ) : ℝ) by norm_cast]
      rw [← absSqrtSubGtB_iff _ _ _ (sqDist_nonneg _ _ _ _)]
      with_unfolding_all decide)

-- --- C8 counterexample ---

/-- C8 counterexample: ids are NOT never-reused across `clearAll`: the
session add, clearAll, add hands out id 1 twice (`clearAll` resets the
counter to 1). -/
theorem C8_counterexample : (runOps initState opsC8).2 = [1, 1] := by
  with_unfolding_all decide

end Gears

namespace Gears

-- --- Static data is never written by the propagator ---

lemma map_staticOf_setMotion (gs : List Gear) (i : Nat) (r : ℚ) (d : Int) :
    (setMotion gs i r d).map staticOf = gs.map staticOf := by
  unfold setMotion
  rw [List.map_map]
  apply List.map_congr_left
  intro g _
  by_cases h : g.id = i
  · simp [staticOf, h]
  · simp [staticOf, h]

lemma map_staticOf_setJam (gs : List Gear) (i : Nat) :
    (setJam gs i).map staticOf = gs.map staticOf := by
  unfold setJam
  rw [List.map_map]
  apply List.map_congr_left
  intro g _
  by_cases h : g.id = i
  · simp [staticOf, h]
  · simp [staticOf, h]

lemma map_staticOf_resetAll (gs : List Gear) :
    (resetAll gs).map staticOf = gs.map staticOf := by
  unfold resetAll
  rw [List.map_map]
  apply List.map_congr_left
  intro g _
  simp [staticOf, resetGear]

lemma map_staticOf_jamLoop (σ : List Gear) :
    ∀ (fuel : Nat) (gs : List Gear) (v q : List Nat),
      ((jamLoop σ fuel gs v q).1).map staticOf = gs.map staticOf := by
  intro fuel
  induction fuel with
  | zero => intro gs v q; rfl
  | succ n ih =>
      intro gs v q
      cases q with
      | nil => rfl
      | cons i rest =>
          simp only [jamLoop]
          rw [ih, map_staticOf_setJam]

lemma map_staticOf_markJammed (σ : List Gear) (i : Nat) (gs : List Gear) :
    (markJammed σ i gs).map staticOf = gs.map staticOf :=
  map_staticOf_jamLoop σ _ gs _ _

lemma map_staticOf_stepLink (σ : List Gear) (m c : Nat) (st : BfsSt) (l : Link) :
    ((stepLink σ m c st l).gs).map staticOf = st.gs.map staticOf := by
  unfold stepLink
  rcases hc : findGear st.gs c with _ | current
  · rfl
  · rcases hn : findGear st.gs l.nid with _ | neighbor
    · rfl
    · dsimp only
      by_cases hv : l.nid ∈ st.visited
      · rw [if_pos hv]
        by_cases hd : neighbor.direction ≠
          (if l.mesh then -current.direction else current.direction)
        · rw [if_pos hd]
          exact map_staticOf_markJammed σ m st.gs
        · rw [if_neg hd]
      · rw [if_neg hv]
        exact map_staticOf_setMotion st.gs l.nid _ _

lemma map_staticOf_foldl_stepLink (σ : List Gear) (m c : Nat) :
    ∀ (L : List Link) (st : BfsSt),
      ((L.foldl (stepLink σ m c) st).gs).map staticOf = st.gs.map staticOf := by
  intro L
  induction L with
  | nil => intro st; rfl
  | cons l L ih =>
      intro st
      rw [List.foldl_cons, ih, map_staticOf_stepLink]

lemma map_staticOf_bfsLoop (σ : List Gear) (m : Nat) :
    ∀ (fuel : Nat) (st : BfsSt),
      ((bfsLoop σ m fuel st).gs).map staticOf = st.gs.map staticOf := by
  intro fuel
  induction fuel with
  | zero => intro st; rfl
  | succ n ih =>
      intro st
      simp only [bfsLoop]
      rcases hq : st.queue with _ | ⟨c, rest⟩
      · rfl
      · rw [ih, map_staticOf_foldl_stepLink]

lemma map_staticOf_runMotor (σ : List Gear) (st : List Gear × List Nat)
    (m : Gear) :
    ((runMotor σ st m).1).map staticOf = st.1.map staticOf := by
  unfold runMotor
  split
  · rfl
  · simp only []
    rw [map_staticOf_bfsLoop, map_staticOf_setMotion]

lemma map_staticOf_foldl_runMotor (σ : List Gear) :
    ∀ (ms : List Gear) (p : List Gear × List Nat),
      ((ms.foldl (runMotor σ) p).1).map staticOf = p.1.map staticOf := by
  intro ms
  induction ms with
  | nil => intro p; rfl
  | cons m ms ih =>
      intro p
      rw [List.foldl_cons, ih, map_staticOf_runMotor]

lemma map_staticOf_propagateMotion (gs : List Gear) :
    (propagateMotion gs).map staticOf = gs.map staticOf := by
  unfold propagateMotion
  rw [map_staticOf_foldl_runMotor, map_staticOf_resetAll]

lemma resetGear_eq_ofStatic (g : Gear) : resetGear g = ofStatic (staticOf g) := rfl

lemma resetAll_eq_map_ofStatic (gs : List Gear) :
    resetAll gs = (gs.map staticOf).map ofStatic := by
  unfold resetAll
  rw [List.map_map]
  rfl

lemma resetAll_congr {gs gs' : List Gear}
    (h : gs.map staticOf = gs'.map staticOf) : resetAll gs = resetAll gs' := by
  rw [resetAll_eq_map_ofStatic, resetAll_eq_map_ofStatic, h]

lemma propagateMotion_congr_resetAll {gs gs' : List Gear}
    (h : resetAll gs = resetAll gs') : propagateMotion gs = propagateMotion gs' := by
  unfold propagateMotion
  rw [h]

-- --- C5 ---

/-- C5: `propagateMotion` is idempotent: the propagator starts by
resetting all derived state and everything it then does depends only on
static gear data, which it never changes, so a second run reproduces the
first run's output exactly. -/
theorem C5_idempotent (gs : List Gear) :
    propagateMotion (propagateMotion gs) = propagateMotion gs :=
  propagateMotion_congr_resetAll
    (resetAll_congr (map_staticOf_propagateMotion gs))

end Gears

namespace Gears

-- --- Id management across sessions ---

lemma propagateMotion_map_id (gs : List Gear) :
    (propagateMotion gs).map Gear.id = gs.map Gear.id := by
  have h1 : (propagateMotion gs).map Gear.id =
      ((propagateMotion gs).map staticOf).map Prod.fst := by
    rw [List.map_map]
    rfl
  have h2 : gs.map Gear.id = (gs.map staticOf).map Prod.fst := by
    rw [List.map_map]
    rfl
  rw [h1, h2, map_staticOf_propagateMotion]

lemma applyOp_inv (p : AppState × List Nat) (op : Op) (hop : op ≠ Op.clear)
    (h1 : ∀ g ∈ p.1.gears, g.id < p.1.nextId)
    (h2 : ∀ i ∈ p.2, i < p.1.nextId)
    (h3 : p.2.Pairwise (· < ·))
    (h4 : ((p.1.gears.map Gear.id)).Nodup) :
    (∀ g ∈ (applyOp p op).1.gears, g.id < (applyOp p op).1.nextId) ∧
    (∀ i ∈ (applyOp p op).2, i < (applyOp p op).1.nextId) ∧
    ((applyOp p op).2).Pairwise (· < ·) ∧
    (((applyOp p op).1.gears.map Gear.id)).Nodup := by
  cases op with
  | clear => exact absurd rfl hop
  | del i =>
      refine ⟨?_, h2, h3, ?_⟩
      · intro g hg
        simp only [applyOp, deleteGear] at hg ⊢
        have hg' : g.id ∈ (propagateMotion
            (p.1.gears.filter fun g => decide (g.id ≠ i))).map Gear.id :=
          List.mem_map_of_mem _ hg
        rw [propagateMotion_map_id] at hg'
        obtain ⟨g', hg', hid⟩ := List.mem_map.mp hg'
        rw [← hid]
        exact h1 g' (List.mem_of_mem_filter hg')
      · simp only [applyOp, deleteGear]
        rw [propagateMotion_map_id]
        exact List.Nodup.sublist
          ((List.filter_sublist p.1.gears).map Gear.id) h4
  | add t teeth x y level =>
      simp only [applyOp]
      unfold addGear
      dsimp only
      by_cases hb : pitchRadius teeth < x ∧ x < canvasWidth - pitchRadius teeth ∧
          pitchRadius teeth < y ∧ y < canvasHeight - pitchRadius teeth
      · rw [if_pos hb]
        by_cases ho : wouldOverlap teeth x y (-1) level p.1.gears = true
        · rw [if_pos ho]
          exact ⟨h1, by simpa using h2, by simpa using h3, h4⟩
        · rw [if_neg ho]
          refine ⟨?_, ?_, ?_, ?_⟩
          · intro g hg
            simp only at hg ⊢
            have hg' : g.id ∈ (propagateMotion
                (p.1.gears ++ [mkGear p.1.nextId t teeth x y level])).map Gear.id :=
              List.mem_map_of_mem _ hg
            rw [propagateMotion_map_id] at hg'
            rw [List.map_append] at hg'
            rcases List.mem_append.mp hg' with hmem | hmem
            · obtain ⟨g', hg', hid⟩ := List.mem_map.mp hmem
              rw [← hid]
              exact Nat.lt_succ_of_lt (h1 g' hg')
            · simp only [List.map_cons, List.map_nil, List.mem_singleton] at hmem
              simp [hmem, mkGear]
          · intro j hj
            simp only [Option.toList_some, List.mem_append,
              List.mem_singleton] at hj
            rcases hj with hj | hj
            · exact Nat.lt_succ_of_lt (h2 j hj)
            · simp [hj]
          · simp only [Option.toList_some]
            rw [List.pairwise_append]
            refine ⟨h3, List.pairwise_singleton _ _, ?_⟩
            intro a ha b hb
            rw [List.mem_singleton] at hb
            rw [hb]
            exact h2 a ha
          · simp only
            rw [propagateMotion_map_id, List.map_append]
            rw [List.nodup_append]
            refine ⟨h4, List.nodup_singleton _, ?_⟩
            intro a ha hb
            simp only [List.map_cons, List.map_nil, List.mem_singleton, mkGear] at hb
            obtain ⟨g', hg', hid⟩ := List.mem_map.mp ha
            rw [hb] at hid
            have := h1 g' hg'
            omega
      · rw [if_neg hb]
        exact ⟨h1, by simpa using h2, by simpa using h3, h4⟩

lemma runOps_inv :
    ∀ (ops : List Op) (p : AppState × List Nat), Op.clear ∉ ops →
      (∀ g ∈ p.1.gears, g.id < p.1.nextId) →
      (∀ i ∈ p.2, i < p.1.nextId) →
      p.2.Pairwise (· < ·) →
      ((p.1.gears.map Gear.id)).Nodup →
      ((ops.foldl applyOp p).2).Pairwise (· < ·) ∧
      (((ops.foldl applyOp p).1.gears.map Gear.id)).Nodup := by
  intro ops
  induction ops with
  | nil => intro p _ _ h2 h3 h4; exact ⟨h3, h4⟩
  | cons op ops ih =>
      intro p hnc h1 h2 h3 h4
      rw [List.foldl_cons]
      have hop : op ≠ Op.clear := fun h => hnc (by rw [h]; exact List.mem_cons_self _ _)
      obtain ⟨k1, k2, k3, k4⟩ := applyOp_inv p op hop h1 h2 h3 h4
      exact ih (applyOp p op) (fun h => hnc (List.mem_cons_of_mem _ h)) k1 k2 k3 k4

-- --- C8 (amended) ---

/-- C8 (amended): within a clear-free session started from the initial
state, gear ids are handed out in strictly increasing order (so no id is
ever reused) and the ids in the collection stay pairwise distinct.
`clearAll` however resets the id counter to 1, so ids are reused after a
clear (see the counterexample). -/
theorem C8_amended (ops : List Op) (h : Op.clear ∉ ops) :
    ((runOps initState ops).2).Pairwise (· < ·) ∧
    (((runOps initState ops).1.gears.map Gear.id)).Nodup := by
  unfold runOps
  exact runOps_inv ops (initState, []) h (by intro g hg; cases hg) (by intro i hi; cases hi)
    List.Pairwise.nil (by simp [initState])

/-- Witness for C8 (amended) at a concrete clear-free session: two adds,
a delete and an add hand out ids 1, 2, 3. -/
theorem C8_amended_witness :
    ((runOps initState opsC8w).2).Pairwise (· < ·) ∧
    (((runOps initState opsC8w).1.gears.map Gear.id)).Nodup :=
  C8_amended opsC8w (by decide)

end Gears

namespace Gears

-- --- Non-motor kinds are irrelevant to propagation (C10 machinery) ---

lemma relabel_id (target : Nat) (nt : GearType) (g : Gear) :
    (relabel target nt g).id = g.id := by
  unfold relabel
  split <;> rfl

lemma relabel_direction (target : Nat) (nt : GearType) (g : Gear) :
    (relabel target nt g).direction = g.direction := by
  unfold relabel
  split <;> rfl

lemma relabel_rpm (target : Nat) (nt : GearType) (g : Gear) :
    (relabel target nt g).rpm = g.rpm := by
  unfold relabel
  split <;> rfl

lemma relabel_teeth (target : Nat) (nt : GearType) (g : Gear) :
    (relabel target nt g).teeth = g.teeth := by
  unfold relabel
  split <;> rfl

lemma relabel_jammed (target : Nat) (nt : GearType) (g : Gear) :
    (relabel target nt g).jammed = g.jammed := by
  unfold relabel
  split <;> rfl

lemma relabel_motor {nt : GearType} (hnt : isMotorType nt = false)
    (target : Nat) (g : Gear) :
    isMotorType (relabel target nt g).type = isMotorType g.type := by
  unfold relabel
  split
  · next h => rw [hnt, h.1]
  · rfl

lemma relabel_motor_fix {target : Nat} {nt : GearType} {g : Gear}
    (hg : isMotorType g.type = true) : relabel target nt g = g := by
  unfold relabel
  rw [if_neg]
  rintro ⟨h1, -⟩
  rw [hg] at h1
  cases h1

lemma relabel_resetGear (target : Nat) (nt : GearType) (g : Gear) :
    resetGear (relabel target nt g) = relabel target nt (resetGear g) := by
  unfold relabel resetGear
  by_cases h : isMotorType g.type = false ∧ g.id = target
  · rw [if_pos h, if_pos h]
  · rw [if_neg h, if_neg h]

lemma relabel_resetAll (target : Nat) (nt : GearType) (gs : List Gear) :
    resetAll (gs.map (relabel target nt)) =
      (resetAll gs).map (relabel target nt) := by
  unfold resetAll
  rw [List.map_map, List.map_map]
  apply List.map_congr_left
  intro g _
  exact relabel_resetGear target nt g

lemma relabel_findGear (target : Nat) (nt : GearType) (gs : List Gear) (i : Nat) :
    findGear (gs.map (relabel target nt)) i =
      (findGear gs i).map (relabel target nt) := by
  unfold findGear
  rw [List.find?_map]
  have h : ((fun g : Gear => decide (g.id = i)) ∘ relabel target nt) =
      fun g : Gear => decide (g.id = i) := by
    funext g
    simp [Function.comp, relabel_id]
  rw [h]

lemma relabel_areMeshed (target : Nat) (nt : GearType) (g h : Gear) :
    areMeshed (relabel target nt g) (relabel target nt h) = areMeshed g h := by
  unfold relabel
  split <;> split <;> rfl

lemma relabel_areAxle (target : Nat) (nt : GearType) (g h : Gear) :
    areAxleConnected (relabel target nt g) (relabel target nt h) =
      areAxleConnected g h := by
  unfold relabel
  split <;> split <;> rfl

lemma relabel_adjOf (target : Nat) (nt : GearType) (σ : List Gear) (i : Nat) :
    adjOf (σ.map (relabel target nt)) i = adjOf σ i := by
  unfold adjOf
  rw [relabel_findGear]
  cases hf : findGear σ i with
  | none => rfl
  | some g =>
      simp only [Option.map_some']
      rw [List.filterMap_map]
      apply List.filterMap_congr
      intro h _
      simp only [Function.comp_apply, relabel_id, relabel_areMeshed,
        relabel_areAxle]

lemma relabel_setMotion (target : Nat) (nt : GearType) (gs : List Gear)
    (i : Nat) (r : ℚ) (d : Int) :
    setMotion (gs.map (relabel target nt)) i r d =
      (setMotion gs i r d).map (relabel target nt) := by
  unfold setMotion
  rw [List.map_map, List.map_map]
  apply List.map_congr_left
  intro g _
  simp only [Function.comp_apply, relabel_id]
  by_cases h : g.id = i
  · rw [if_pos h, if_pos h]
    unfold relabel
    by_cases hg : isMotorType g.type = false ∧ g.id = target
    · rw [if_pos hg, if_pos hg]
    · rw [if_neg hg, if_neg hg]
  · rw [if_neg h, if_neg h]

lemma relabel_setJam (target : Nat) (nt : GearType) (gs : List Gear) (i : Nat) :
    setJam (gs.map (relabel target nt)) i =
      (setJam gs i).map (relabel target nt) := by
  unfold setJam
  rw [List.map_map, List.map_map]
  apply List.map_congr_left
  intro g _
  simp only [Function.comp_apply, relabel_id]
  by_cases h : g.id = i
  · rw [if_pos h, if_pos h]
    unfold relabel
    by_cases hg : isMotorType g.type = false ∧ g.id = target
    · rw [if_pos hg, if_pos hg]
    · rw [if_neg hg, if_neg hg]
  · rw [if_neg h, if_neg h]

lemma relabel_jamLoop (target : Nat) (nt : GearType) (σ : List Gear) :
    ∀ (fuel : Nat) (gs : List Gear) (v q : List Nat),
      jamLoop (σ.map (relabel target nt)) fuel (gs.map (relabel target nt)) v q =
        ((jamLoop σ fuel gs v q).1.map (relabel target nt),
          (jamLoop σ fuel gs v q).2) := by
  intro fuel
  induction fuel with
  | zero => intro gs v q; rfl
  | succ n ih =>
      intro gs v q
      cases q with
      | nil => rfl
      | cons i rest =>
          simp only [jamLoop, relabel_adjOf, relabel_setJam]
          rw [ih]

lemma relabel_markJammed (target : Nat) (nt : GearType) (σ : List Gear)
    (i : Nat) (gs : List Gear) :
    markJammed (σ.map (relabel target nt)) i (gs.map (relabel target nt)) =
      (markJammed σ i gs).map (relabel target nt) := by
  unfold markJammed
  rw [List.length_map, relabel_jamLoop]

lemma relabel_stepLink (target : Nat) (nt : GearType) (σ : List Gear)
    (m c : Nat) (gs : List Gear) (v q : List Nat) (l : Link) :
    stepLink (σ.map (relabel target nt)) m c ⟨gs.map (relabel target nt), v, q⟩ l =
      ⟨(stepLink σ m c ⟨gs, v, q⟩ l).gs.map (relabel target nt),
        (stepLink σ m c ⟨gs, v, q⟩ l).visited,
        (stepLink σ m c ⟨gs, v, q⟩ l).queue⟩ := by
  unfold stepLink
  simp only [relabel_findGear]
  cases hc : findGear gs c with
  | none => rfl
  | some current =>
      cases hn : findGear gs l.nid with
      | none => rfl
      | some neighbor =>
          simp only [Option.map_some']
          simp only [relabel_direction, relabel_rpm, relabel_teeth]
          by_cases hv : l.nid ∈ v
          · rw [if_pos hv, if_pos hv]
            by_cases hd : neighbor.direction ≠
                (if l.mesh then -current.direction else current.direction)
            · rw [if_pos hd, if_pos hd]
              rw [relabel_markJammed]
            · rw [if_neg hd, if_neg hd]
          · rw [if_neg hv, if_neg hv]
            rw [relabel_setMotion]

lemma relabel_foldl_stepLink (target : Nat) (nt : GearType) (σ : List Gear)
    (m c : Nat) :
    ∀ (L : List Link) (gs : List Gear) (v q : List Nat),
      L.foldl (stepLink (σ.map (relabel target nt)) m c)
          ⟨gs.map (relabel target nt), v, q⟩ =
        ⟨(L.foldl (stepLink σ m c) ⟨gs, v, q⟩).gs.map (relabel target nt),
          (L.foldl (stepLink σ m c) ⟨gs, v, q⟩).visited,
          (L.foldl (stepLink σ m c) ⟨gs, v, q⟩).queue⟩ := by
  intro L
  induction L with
  | nil => intro gs v q; rfl
  | cons l L ih =>
      intro gs v q
      rw [List.foldl_cons, List.foldl_cons, relabel_stepLink, ih]

lemma relabel_bfsLoop (target : Nat) (nt : GearType) (σ : List Gear) (m : Nat) :
    ∀ (fuel : Nat) (gs : List Gear) (v q : List Nat),
      bfsLoop (σ.map (relabel target nt)) m fuel ⟨gs.map (relabel target nt), v, q⟩ =
        ⟨(bfsLoop σ m fuel ⟨gs, v, q⟩).gs.map (relabel target nt),
          (bfsLoop σ m fuel ⟨gs, v, q⟩).visited,
          (bfsLoop σ m fuel ⟨gs, v, q⟩).queue⟩ := by
  intro fuel
  induction fuel with
  | zero => intro gs v q; rfl
  | succ n ih =>
      intro gs v q
      cases q with
      | nil => rfl
      | cons c rest =>
          simp only [bfsLoop, relabel_adjOf]
          rw [relabel_foldl_stepLink]
          rw [ih]

lemma relabel_runMotor {nt : GearType} (hnt : isMotorType nt = false)
    (target : Nat) (σ : List Gear) (gs : List Gear) (vis : List Nat)
    (m : Gear) (hm : isMotorType m.type = true) :
    runMotor (σ.map (relabel target nt)) (gs.map (relabel target nt), vis) m =
      ((runMotor σ (gs, vis) m).1.map (relabel target nt),
        (runMotor σ (gs, vis) m).2) := by
  unfold runMotor
  by_cases hv : m.id ∈ vis
  · rw [if_pos hv, if_pos hv]
  · rw [if_neg hv, if_neg hv]
    dsimp only
    rw [List.length_map, relabel_setMotion, relabel_bfsLoop]

lemma relabel_motors {nt : GearType} (hnt : isMotorType nt = false)
    (target : Nat) (σ : List Gear) :
    (σ.map (relabel target nt)).filter (fun g => isMotorType g.type) =
      σ.filter (fun g => isMotorType g.type) := by
  rw [List.filter_map]
  have h1 : (fun g => isMotorType g.type) ∘ relabel target nt =
      fun g => isMotorType g.type := by
    funext g
    exact relabel_motor hnt target g
  rw [h1]
  have h2 : ∀ g ∈ σ.filter (fun g => isMotorType g.type),
      relabel target nt g = id g :=
    fun g hg => relabel_motor_fix (by simpa using (List.mem_filter.mp hg).2)
  rw [List.map_congr_left h2, List.map_id]

lemma relabel_foldl_runMotor {nt : GearType} (hnt : isMotorType nt = false)
    (target : Nat) (σ : List Gear) :
    ∀ (ms : List Gear), (∀ m ∈ ms, isMotorType m.type = true) →
      ∀ (gs : List Gear) (vis : List Nat),
      ms.foldl (runMotor (σ.map (relabel target nt)))
          (gs.map (relabel target nt), vis) =
        ((ms.foldl (runMotor σ) (gs, vis)).1.map (relabel target nt),
          (ms.foldl (runMotor σ) (gs, vis)).2) := by
  intro ms
  induction ms with
  | nil => intro _ gs vis; rfl
  | cons m ms ih =>
      intro hms gs vis
      rw [List.foldl_cons, List.foldl_cons]
      rw [relabel_runMotor hnt target σ gs vis m (hms m (List.mem_cons_self _ _))]
      have := ih (fun m' hm' => hms m' (List.mem_cons_of_mem _ hm'))
        (runMotor σ (gs, vis) m).1 (runMotor σ (gs, vis) m).2
      rw [this]

lemma relabel_propagateMotion {nt : GearType} (hnt : isMotorType nt = false)
    (target : Nat) (gs : List Gear) :
    propagateMotion (gs.map (relabel target nt)) =
      (propagateMotion gs).map (relabel target nt) := by
  simp only [propagateMotion]
  rw [relabel_resetAll]
  rw [relabel_motors hnt]
  have hmot : ∀ m ∈ (resetAll gs).filter (fun g => isMotorType g.type),
      isMotorType m.type = true := by
    intro m hm
    simpa using (List.mem_filter.mp hm).2
  have := relabel_foldl_runMotor hnt target (resetAll gs)
    ((resetAll gs).filter (fun g => isMotorType g.type)) hmot (resetAll gs) []
  rw [this]

-- --- C10 ---

/-- C10: the kind of a non-motor gear is irrelevant to propagation:
replacing the type of any non-motor gear (e.g. `gear` by `sheep` or
`flywheel`) yields, after `propagateMotion`, the same id, rpm, direction
and jammed value for every gear. -/
theorem C10_kind_irrelevant (gs : List Gear) (target : Nat) (nt : GearType)
    (hnt : isMotorType nt = false) :
    (propagateMotion (gs.map (relabel target nt))).map dyn =
      (propagateMotion gs).map dyn := by
  rw [relabel_propagateMotion hnt, List.map_map]
  apply List.map_congr_left
  intro g _
  simp only [Function.comp_apply, dyn, relabel_id, relabel_rpm,
    relabel_direction, relabel_jammed]

/-- Witness for C10 at a concrete input: turning the 24-tooth gear of
`exC1` into a sheep leaves the propagated id/rpm/direction/jammed values
unchanged. -/
theorem C10_kind_irrelevant_witness :
    (propagateMotion (exC1.map (relabel 2 .sheep))).map dyn =
      (propagateMotion exC1).map dyn :=
  C10_kind_irrelevant exC1 2 .sheep (by decide)

end Gears

namespace Gears

-- --- Adjacency and reachability basics ---

lemma findGear_spec {gs : List Gear} {i : Nat} {g : Gear}
    (h : findGear gs i = some g) : g ∈ gs ∧ g.id = i := by
  refine ⟨List.mem_of_find?_eq_some h, ?_⟩
  have := List.find?_some h
  simpa using this

lemma findGear_isSome {gs : List Gear} {i : Nat} (h : i ∈ gearIds gs) :
    ∃ g, findGear gs i = some g := by
  unfold gearIds at h
  obtain ⟨g, hg, hid⟩ := List.mem_map.mp h
  have : (findGear gs i).isSome = true := by
    rw [findGear, List.find?_isSome]
    exact ⟨g, hg, by simp [hid]⟩
  rcases hf : findGear gs i with _ | g'
  · rw [hf] at this; cases this
  · exact ⟨g', rfl⟩

lemma adjOf_spec {σ : List Gear} {i : Nat} {l : Link} (h : l ∈ adjOf σ i) :
    ∃ g, findGear σ i = some g ∧
      ∃ gh ∈ σ, gh.id = l.nid ∧ gh.id ≠ g.id ∧
        ((l.mesh = true ∧ areMeshed g gh = true) ∨
          (l.mesh = false ∧ areMeshed g gh = false ∧ areAxleConnected g gh = true)) := by
  unfold adjOf at h
  rcases hf : findGear σ i with _ | g
  · rw [hf] at h; cases h
  · rw [hf] at h
    refine ⟨g, rfl, ?_⟩
    obtain ⟨gh, hgh, hfh⟩ := List.mem_filterMap.mp h
    by_cases hid : gh.id = g.id
    · rw [if_pos hid] at hfh; cases hfh
    · rw [if_neg hid] at hfh
      by_cases hms : areMeshed g gh = true
      · rw [if_pos hms] at hfh
        refine ⟨gh, hgh, ?_, hid, Or.inl ⟨?_, hms⟩⟩
        · cases hfh; rfl
        · cases hfh; rfl
      · rw [if_neg hms] at hfh
        by_cases hax : areAxleConnected g gh = true
        · rw [if_pos hax] at hfh
          refine ⟨gh, hgh, ?_, hid, Or.inr ⟨?_, by simpa using hms, hax⟩⟩
          · cases hfh; rfl
          · cases hfh; rfl
        · rw [if_neg hax] at hfh; cases hfh

lemma adjOf_nid_mem {σ : List Gear} {i : Nat} {l : Link} (h : l ∈ adjOf σ i) :
    l.nid ∈ gearIds σ := by
  obtain ⟨g, -, gh, hgh, hid, -⟩ := adjOf_spec h
  exact hid ▸ List.mem_map_of_mem Gear.id hgh

lemma adjOf_source_mem {σ : List Gear} {i : Nat} {l : Link} (h : l ∈ adjOf σ i) :
    i ∈ gearIds σ := by
  obtain ⟨g, hg, -⟩ := adjOf_spec h
  obtain ⟨hmem, hid⟩ := findGear_spec hg
  exact hid ▸ List.mem_map_of_mem Gear.id hmem

lemma distSq_comm (g h : Gear) : distSq g h = distSq h g := by
  unfold distSq sqDist
  ring

lemma meshDistance_comm (g h : Gear) : meshDistance g h = meshDistance h g := by
  unfold meshDistance
  ring

lemma areMeshed_symm (g h : Gear) : areMeshed g h = areMeshed h g := by
  unfold areMeshed
  rw [distSq_comm, meshDistance_comm]
  congr 1
  simp [eq_comm]

lemma areAxle_symm (g h : Gear) : areAxleConnected g h = areAxleConnected h g := by
  unfold areAxleConnected
  rw [distSq_comm]
  congr 1
  simp [ne_comm]

lemma areAxle_not_meshed {g h : Gear} (hax : areAxleConnected g h = true) :
    areMeshed h g = false := by
  unfold areAxleConnected at hax
  rw [Bool.and_eq_true, decide_eq_true_iff] at hax
  unfold areMeshed
  rw [Bool.and_eq_false_iff]
  left
  rw [decide_eq_false_iff_not]
  exact fun he => hax.1 he.symm

lemma mem_adjOf_of_rel {σ : List Gear} {g gh : Gear} (hg : g ∈ σ)
    (hgh : findGear σ gh.id = some gh) (hne : g.id ≠ gh.id)
    (hrel : areMeshed gh g = true ∨ areAxleConnected gh g = true) :
    ∃ l ∈ adjOf σ gh.id, l.nid = g.id := by
  unfold adjOf
  rw [hgh]
  by_cases hms : areMeshed gh g = true
  · refine ⟨⟨g.id, true⟩, ?_, rfl⟩
    rw [List.mem_filterMap]
    exact ⟨g, hg, by rw [if_neg hne, if_pos hms]⟩
  · rcases hrel with hrel | hrel
    · exact absurd hrel hms
    · refine ⟨⟨g.id, false⟩, ?_, rfl⟩
      rw [List.mem_filterMap]
      refine ⟨g, hg, ?_⟩
      rw [if_neg hne, if_neg hms, if_pos hrel]

lemma edge_symm {σ : List Gear} (hnd : (gearIds σ).Nodup) {i j : Nat}
    (h : ∃ l ∈ adjOf σ i, l.nid = j) : ∃ l ∈ adjOf σ j, l.nid = i := by
  obtain ⟨l, hl, hlj⟩ := h
  obtain ⟨g, hg, gh, hghmem, hghid, hne, hrel⟩ := adjOf_spec hl
  obtain ⟨hgmem, hgid⟩ := findGear_spec hg
  have hj : j ∈ gearIds σ := by
    rw [← hlj, ← hghid]
    exact List.mem_map_of_mem Gear.id hghmem
  obtain ⟨g', hg'⟩ := findGear_isSome hj
  obtain ⟨hg'mem, hg'id⟩ := findGear_spec hg'
  have hgh' : g' = gh := by
    apply List.inj_on_of_nodup_map hnd hg'mem hghmem
    rw [hg'id, ← hlj, hghid]
  subst hgh'
  have hgfind : findGear σ g'.id = some g' := by
    rw [hg'id]
    exact hg'
  have hne' : g.id ≠ g'.id := fun hh => hne hh.symm
  have hrel' : areMeshed g' g = true ∨ areAxleConnected g' g = true := by
    rcases hrel with ⟨-, hm⟩ | ⟨-, -, ha⟩
    · left
      rw [areMeshed_symm] at hm
      exact hm
    · right
      rw [areAxle_symm] at ha
      exact ha
  obtain ⟨l', hl', hl'i⟩ := mem_adjOf_of_rel hgmem hgfind hne' hrel'
  rw [hg'id] at hl'
  exact ⟨l', hl', by rw [hl'i, hgid]⟩

lemma reach_closed {σ : List Gear} {V : List Nat}
    (hcl : ∀ i ∈ V, ∀ l ∈ adjOf σ i, l.nid ∈ V) {i j : Nat}
    (hi : i ∈ V) (hr : Reaches σ i j) : j ∈ V := by
  induction hr with
  | refl => exact hi
  | tail _ he ih =>
      obtain ⟨l, hl, hlk⟩ := he
      exact hlk ▸ hcl _ ih l hl

end Gears

namespace Gears

-- --- Flood-fill fold facts (shared by `markJammed` and the BFS) ---

lemma floodStep_split (p : List Nat × List Nat) (l : Link) :
    floodStep p l = p ∨
      (l.nid ∉ p.1 ∧ floodStep p l = (l.nid :: p.1, p.2 ++ [l.nid])) := by
  unfold floodStep
  by_cases h : l.nid ∈ p.1
  · rw [if_pos h]
    exact Or.inl rfl
  · rw [if_neg h]
    exact Or.inr ⟨h, rfl⟩

lemma flood_fold_visited_mono :
    ∀ (L : List Link) (p : List Nat × List Nat) (x : Nat), x ∈ p.1 →
      x ∈ (L.foldl floodStep p).1 := by
  intro L
  induction L with
  | nil => intro p x hx; exact hx
  | cons l L ih =>
      intro p x hx
      rw [List.foldl_cons]
      apply ih
      rcases floodStep_split p l with h | ⟨-, h⟩ <;> rw [h]
      · exact hx
      · exact List.mem_cons_of_mem _ hx

lemma flood_fold_queue_mono :
    ∀ (L : List Link) (p : List Nat × List Nat) (x : Nat), x ∈ p.2 →
      x ∈ (L.foldl floodStep p).2 := by
  intro L
  induction L with
  | nil => intro p x hx; exact hx
  | cons l L ih =>
      intro p x hx
      rw [List.foldl_cons]
      apply ih
      rcases floodStep_split p l with h | ⟨-, h⟩ <;> rw [h]
      · exact hx
      · exact List.mem_append_left _ hx

lemma flood_fold_links :
    ∀ (L : List Link) (p : List Nat × List Nat), ∀ l ∈ L,
      l.nid ∈ (L.foldl floodStep p).1 := by
  intro L
  induction L with
  | nil => intro p l hl; cases hl
  | cons l0 L ih =>
      intro p l hl
      rw [List.foldl_cons]
      rcases List.mem_cons.mp hl with h | h
      · subst h
        apply flood_fold_visited_mono
        unfold floodStep
        by_cases hm : l.nid ∈ p.1
        · rw [if_pos hm]
          exact hm
        · rw [if_neg hm]
          exact List.mem_cons_self _ _
      · exact ih _ l h

lemma flood_fold_visited_src :
    ∀ (L : List Link) (p : List Nat × List Nat), ∀ x ∈ (L.foldl floodStep p).1,
      x ∈ p.1 ∨ ∃ l ∈ L, l.nid = x := by
  intro L
  induction L with
  | nil => intro p x hx; exact Or.inl hx
  | cons l L ih =>
      intro p x hx
      rw [List.foldl_cons] at hx
      rcases ih _ x hx with h | ⟨l', hl', hx'⟩
      · rcases floodStep_split p l with hs | ⟨-, hs⟩ <;> rw [hs] at h
        · exact Or.inl h
        · rcases List.mem_cons.mp h with h | h
          · exact Or.inr ⟨l, List.mem_cons_self _ _, h.symm⟩
          · exact Or.inl h
      · exact Or.inr ⟨l', List.mem_cons_of_mem _ hl', hx'⟩

lemma flood_fold_queue_src :
    ∀ (L : List Link) (p : List Nat × List Nat), ∀ x ∈ (L.foldl floodStep p).2,
      x ∈ p.2 ∨ ∃ l ∈ L, l.nid = x := by
  intro L
  induction L with
  | nil => intro p x hx; exact Or.inl hx
  | cons l L ih =>
      intro p x hx
      rw [List.foldl_cons] at hx
      rcases ih _ x hx with h | ⟨l', hl', hx'⟩
      · rcases floodStep_split p l with hs | ⟨-, hs⟩ <;> rw [hs] at h
        · exact Or.inl h
        · rcases List.mem_append.mp h with h | h
          · exact Or.inl h
          · rw [List.mem_singleton] at h
            exact Or.inr ⟨l, List.mem_cons_self _ _, h.symm⟩
      · exact Or.inr ⟨l', List.mem_cons_of_mem _ hl', hx'⟩

lemma flood_fold_qsubv :
    ∀ (L : List Link) (p : List Nat × List Nat), (∀ x ∈ p.2, x ∈ p.1) →
      ∀ x ∈ (L.foldl floodStep p).2, x ∈ (L.foldl floodStep p).1 := by
  intro L
  induction L with
  | nil => intro p h x hx; exact h x hx
  | cons l L ih =>
      intro p h x hx
      rw [List.foldl_cons] at hx ⊢
      apply ih _ _ x hx
      intro y hy
      rcases floodStep_split p l with hs | ⟨-, hs⟩ <;> rw [hs] at hy ⊢
      · exact h y hy
      · rcases List.mem_append.mp hy with hy | hy
        · exact List.mem_cons_of_mem _ (h y hy)
        · rw [List.mem_singleton] at hy
          rw [hy]
          exact List.mem_cons_self _ _

lemma flood_fold_new_in_queue :
    ∀ (L : List Link) (p : List Nat × List Nat), ∀ x ∈ (L.foldl floodStep p).1,
      x ∈ p.1 ∨ x ∈ (L.foldl floodStep p).2 := by
  intro L
  induction L with
  | nil => intro p x hx; exact Or.inl hx
  | cons l L ih =>
      intro p x hx
      rw [List.foldl_cons] at hx ⊢
      rcases ih _ x hx with h | h
      · rcases floodStep_split p l with hs | ⟨-, hs⟩ <;> rw [hs] at h
        · exact Or.inl h
        · rcases List.mem_cons.mp h with h | h
          · right
            apply flood_fold_queue_mono
            rw [hs, h]
            exact List.mem_append_right _ (List.mem_singleton_self _)
          · exact Or.inl h
      · exact Or.inr h

lemma floodStep_measure (σ : List Gear) (p : List Nat × List Nat) (l : Link)
    (h : l.nid ∈ gearIds σ) :
    bfsMeasure σ (floodStep p l).1 (floodStep p l).2 ≤
      bfsMeasure σ p.1 p.2 := by
  unfold floodStep
  by_cases hm : l.nid ∈ p.1
  · rw [if_pos hm]
  · rw [if_neg hm]
    unfold bfsMeasure
    simp only [List.toFinset_cons, List.length_append, List.length_singleton]
    have hmem : l.nid ∈ (gearIds σ).toFinset \ p.1.toFinset := by
      rw [Finset.mem_sdiff]
      exact ⟨List.mem_toFinset.mpr h, fun hc => hm (List.mem_toFinset.mp hc)⟩
    have hcard : ((gearIds σ).toFinset \ insert l.nid p.1.toFinset).card =
        ((gearIds σ).toFinset \ p.1.toFinset).card - 1 := by
      rw [Finset.sdiff_insert]
      exact Finset.card_erase_of_mem hmem
    have hpos : 0 < ((gearIds σ).toFinset \ p.1.toFinset).card :=
      Finset.card_pos.mpr ⟨_, hmem⟩
    omega

lemma flood_fold_measure (σ : List Gear) :
    ∀ (L : List Link) (p : List Nat × List Nat),
      (∀ l ∈ L, l.nid ∈ gearIds σ) →
      bfsMeasure σ (L.foldl floodStep p).1 (L.foldl floodStep p).2 ≤
        bfsMeasure σ p.1 p.2 := by
  intro L
  induction L with
  | nil => intro p _; exact le_refl _
  | cons l L ih =>
      intro p hL
      rw [List.foldl_cons]
      exact le_trans (ih _ (fun l' hl' => hL l' (List.mem_cons_of_mem _ hl')))
        (floodStep_measure σ p l (hL l (List.mem_cons_self _ _)))

end Gears

namespace Gears

lemma flood_fold_semiclosed (σ : List Gear) (i : Nat) (v rest : List Nat)
    (hsc : SemiClosed σ v (i :: rest)) :
    SemiClosed σ ((adjOf σ i).foldl floodStep (v, rest)).1
      ((adjOf σ i).foldl floodStep (v, rest)).2 := by
  intro x hx hxq l hl
  rcases flood_fold_new_in_queue _ _ x hx with hxv | hxq'
  · by_cases hxi : x = i
    · subst hxi
      exact flood_fold_links _ _ l hl
    · have hxrest : x ∉ rest := fun hr => hxq (flood_fold_queue_mono _ _ x hr)
      have hxq0 : x ∉ i :: rest := by
        intro hc
        rcases List.mem_cons.mp hc with hc | hc
        · exact hxi hc
        · exact hxrest hc
      exact flood_fold_visited_mono _ _ _ (hsc x hxv hxq0 l hl)
  · exact absurd hxq' hxq

lemma bfsMeasure_cons (σ : List Gear) (v : List Nat) (i : Nat) (q : List Nat) :
    bfsMeasure σ v (i :: q) = bfsMeasure σ v q + 1 := by
  unfold bfsMeasure
  simp [List.length_cons]
  omega

lemma bfsMeasure_le (σ : List Gear) (v q : List Nat) :
    bfsMeasure σ v q ≤ σ.length + q.length := by
  unfold bfsMeasure
  have h1 : ((gearIds σ).toFinset \ v.toFinset).card ≤ (gearIds σ).toFinset.card :=
    Finset.card_le_card (Finset.sdiff_subset)
  have h2 : (gearIds σ).toFinset.card ≤ (gearIds σ).length :=
    List.toFinset_card_le _
  have h3 : (gearIds σ).length = σ.length := List.length_map _ _
  omega

lemma floodLoop_mono (σ : List Gear) :
    ∀ (f : Nat) (v q : List Nat) (x : Nat), x ∈ v → x ∈ floodLoop σ f v q := by
  intro f
  induction f with
  | zero => intro v q x hx; exact hx
  | succ n ih =>
      intro v q x hx
      cases q with
      | nil => exact hx
      | cons i rest =>
          simp only [floodLoop]
          exact ih _ _ x (flood_fold_visited_mono _ _ x hx)

lemma floodLoop_closed (σ : List Gear) :
    ∀ (f : Nat) (v q : List Nat), (∀ x ∈ q, x ∈ v) → SemiClosed σ v q →
      bfsMeasure σ v q ≤ f →
      ∀ x ∈ floodLoop σ f v q, ∀ l ∈ adjOf σ x, l.nid ∈ floodLoop σ f v q := by
  intro f
  induction f with
  | zero =>
      intro v q hqv hsc hμ
      have hq : q = [] := by
        cases q with
        | nil => rfl
        | cons a as =>
            rw [bfsMeasure_cons] at hμ
            omega
      subst hq
      intro x hx l hl
      exact hsc x hx (List.not_mem_nil x) l hl
  | succ n ih =>
      intro v q hqv hsc hμ
      cases q with
      | nil =>
          intro x hx l hl
          exact hsc x hx (List.not_mem_nil x) l hl
      | cons i rest =>
          simp only [floodLoop]
          apply ih
          · exact flood_fold_qsubv _ _ (fun x hx => hqv x (List.mem_cons_of_mem _ hx))
          · exact flood_fold_semiclosed σ i v rest hsc
          · have h1 := flood_fold_measure σ (adjOf σ i) (v, rest)
              (fun l hl => adjOf_nid_mem hl)
            dsimp only at h1
            rw [bfsMeasure_cons] at hμ
            omega

lemma floodLoop_sound (σ : List Gear) (S : Nat → Prop)
    (hcl : ∀ x y, S x → (∃ l ∈ adjOf σ x, l.nid = y) → S y) :
    ∀ (f : Nat) (v q : List Nat), (∀ x ∈ v, S x) → (∀ x ∈ q, S x) →
      ∀ x ∈ floodLoop σ f v q, S x := by
  intro f
  induction f with
  | zero => intro v q hv _ x hx; exact hv x hx
  | succ n ih =>
      intro v q hv hq x hx
      cases q with
      | nil => exact hv x hx
      | cons i rest =>
          simp only [floodLoop] at hx
          refine ih _ _ ?_ ?_ x hx
          · intro y hy
            rcases flood_fold_visited_src _ _ y hy with hy | ⟨l, hl, hy⟩
            · exact hv y hy
            · exact hcl i y (hq i (List.mem_cons_self _ _)) ⟨l, hl, hy⟩
          · intro y hy
            rcases flood_fold_queue_src _ _ y hy with hy | ⟨l, hl, hy⟩
            · exact hq y (List.mem_cons_of_mem _ hy)
            · exact hcl i y (hq i (List.mem_cons_self _ _)) ⟨l, hl, hy⟩

lemma jamLoop_visited (σ : List Gear) :
    ∀ (f : Nat) (gs : List Gear) (v q : List Nat),
      (jamLoop σ f gs v q).2 = floodLoop σ f v q := by
  intro f
  induction f with
  | zero => intro gs v q; rfl
  | succ n ih =>
      intro gs v q
      cases q with
      | nil => rfl
      | cons i rest =>
          simp only [jamLoop, floodLoop]
          exact ih _ _ _

lemma reachSet_start_mem (σ : List Gear) (i : Nat) : i ∈ reachSet σ i :=
  floodLoop_mono σ _ _ _ i (List.mem_singleton_self i)

lemma reachSet_closed (σ : List Gear) (i : Nat) :
    ∀ x ∈ reachSet σ i, ∀ l ∈ adjOf σ x, l.nid ∈ reachSet σ i := by
  apply floodLoop_closed
  · intro x hx
    exact hx
  · intro x hxv hxq
    exact absurd hxv hxq
  · have := bfsMeasure_le σ [i] [i]
    simpa using this

lemma reaches_mem_reachSet {σ : List Gear} {i j : Nat} (h : Reaches σ i j) :
    j ∈ reachSet σ i :=
  reach_closed (reachSet_closed σ i) (reachSet_start_mem σ i) h

lemma reachSet_sound (σ : List Gear) (i : Nat) :
    ∀ x ∈ reachSet σ i, Reaches σ i x := by
  apply floodLoop_sound σ (Reaches σ i)
    (fun x y hx he => Reaches.tail hx he)
  · intro x hx
    rw [List.mem_singleton] at hx
    rw [hx]
    exact Reaches.refl i
  · intro x hx
    rw [List.mem_singleton] at hx
    rw [hx]
    exact Reaches.refl i

end Gears

namespace Gears

-- --- `markJammed` frame and completeness ---

lemma forall₂_mem_right {α β : Type} {R : α → β → Prop} :
    ∀ {l₁ : List α} {l₂ : List β}, List.Forall₂ R l₁ l₂ → ∀ {b : β}, b ∈ l₂ →
      ∃ a ∈ l₁, R a b := by
  intro l₁ l₂ h
  induction h with
  | nil => intro b hb; cases hb
  | cons hab hl ih =>
      intro b hb
      rcases List.mem_cons.mp hb with hb | hb
      · subst hb
        exact ⟨_, List.mem_cons_self _ _, hab⟩
      · obtain ⟨a, ha, hr⟩ := ih hb
        exact ⟨a, List.mem_cons_of_mem _ ha, hr⟩

lemma forall₂_trans_of {α : Type} {R : α → α → Prop}
    (htrans : ∀ a b c, R a b → R b c → R a c) :
    ∀ {l₁ l₂ l₃ : List α}, List.Forall₂ R l₁ l₂ → List.Forall₂ R l₂ l₃ →
      List.Forall₂ R l₁ l₃ := by
  intro l₁ l₂ l₃ h12
  induction h12 generalizing l₃ with
  | nil => intro h23; cases h23; exact List.Forall₂.nil
  | cons hab hl ih =>
      intro h23
      cases h23 with
      | cons hbc hl' => exact List.Forall₂.cons (htrans _ _ _ hab hbc) (ih hl')

lemma jamRel_id {σ : List Gear} {s : Nat} {g g' : Gear}
    (h : JamRel σ s g g') : g'.id = g.id := by
  rcases h with h | ⟨-, h⟩
  · rw [h]
  · rw [h]
    rfl

lemma jamRel_trans {σ : List Gear} {s : Nat} :
    ∀ a b c : Gear, JamRel σ s a b → JamRel σ s b c → JamRel σ s a c := by
  intro a b c hab hbc
  rcases hab with hab | ⟨hra, hab⟩
  · subst hab
    exact hbc
  · rcases hbc with hbc | ⟨-, hbc⟩
    · subst hbc
      exact Or.inr ⟨hra, hab⟩
    · subst hab
      subst hbc
      exact Or.inr ⟨hra, rfl⟩

lemma setJam_forall₂ {σ : List Gear} {s : Nat} {i : Nat}
    (h : Reaches σ s i) (gs : List Gear) :
    List.Forall₂ (JamRel σ s) gs (setJam gs i) := by
  unfold setJam
  rw [List.forall₂_map_right_iff]
  rw [List.forall₂_same]
  intro g _
  by_cases hgi : g.id = i
  · rw [if_pos hgi]
    exact Or.inr ⟨hgi ▸ h, rfl⟩
  · rw [if_neg hgi]
    exact Or.inl rfl

lemma jamLoop_frame (σ : List Gear) (s : Nat) :
    ∀ (f : Nat) (gs : List Gear) (v q : List Nat),
      (∀ x ∈ q, Reaches σ s x) →
      List.Forall₂ (JamRel σ s) gs (jamLoop σ f gs v q).1 := by
  intro f
  induction f with
  | zero =>
      intro gs v q _
      exact List.forall₂_same.mpr fun g _ => Or.inl rfl
  | succ n ih =>
      intro gs v q hq
      cases q with
      | nil => exact List.forall₂_same.mpr fun g _ => Or.inl rfl
      | cons i rest =>
          simp only [jamLoop]
          have h1 : List.Forall₂ (JamRel σ s) gs (setJam gs i) :=
            setJam_forall₂ (hq i (List.mem_cons_self _ _)) gs
          have hq' : ∀ x ∈ ((adjOf σ i).foldl floodStep (v, rest)).2,
              Reaches σ s x := by
            intro x hx
            rcases flood_fold_queue_src _ _ x hx with hx | ⟨l, hl, hx⟩
            · exact hq x (List.mem_cons_of_mem _ hx)
            · exact Reaches.tail (hq i (List.mem_cons_self _ _)) ⟨l, hl, hx⟩
          exact forall₂_trans_of jamRel_trans h1 (ih _ _ _ hq')

lemma jamLoop_zero (σ : List Gear) :
    ∀ (f : Nat) (gs : List Gear) (v q : List Nat),
      (∀ x ∈ q, x ∈ v) →
      (∀ g ∈ gs, g.id ∈ v → g.id ∉ q →
        g.jammed = true ∧ g.rpm = 0 ∧ g.direction = 0) →
      SemiClosed σ v q →
      bfsMeasure σ v q ≤ f →
      ∀ g ∈ (jamLoop σ f gs v q).1, g.id ∈ (jamLoop σ f gs v q).2 →
        g.jammed = true ∧ g.rpm = 0 ∧ g.direction = 0 := by
  intro f
  induction f with
  | zero =>
      intro gs v q hqv hz hsc hμ
      have hq : q = [] := by
        cases q with
        | nil => rfl
        | cons a as =>
            rw [bfsMeasure_cons] at hμ
            omega
      subst hq
      intro g hg hgv
      exact hz g hg hgv (List.not_mem_nil _)
  | succ n ih =>
      intro gs v q hqv hz hsc hμ
      cases q with
      | nil =>
          intro g hg hgv
          exact hz g hg hgv (List.not_mem_nil _)
      | cons i rest =>
          simp only [jamLoop]
          apply ih
          · exact flood_fold_qsubv _ _ (fun x hx => hqv x (List.mem_cons_of_mem _ hx))
          · intro g hg hgv hgq
            unfold setJam at hg
            obtain ⟨g0, hg0, hgeq⟩ := List.mem_map.mp hg
            by_cases hgi : g0.id = i
            · rw [if_pos hgi] at hgeq
              rw [← hgeq]
              exact ⟨rfl, rfl, rfl⟩
            · rw [if_neg hgi] at hgeq
              subst hgeq
              rcases flood_fold_new_in_queue _ _ g0.id hgv with hv0 | hq0
              · refine hz g0 hg0 hv0 ?_
                intro hc
                rcases List.mem_cons.mp hc with hc | hc
                · exact hgi hc
                · exact hgq (flood_fold_queue_mono _ _ _ hc)
              · exact absurd hq0 hgq
          · exact flood_fold_semiclosed σ i v rest hsc
          · have h1 := flood_fold_measure σ (adjOf σ i) (v, rest)
              (fun l hl => adjOf_nid_mem hl)
            dsimp only at h1
            rw [bfsMeasure_cons] at hμ
            omega

lemma markJammed_frame (σ : List Gear) (s : Nat) (gs : List Gear) :
    List.Forall₂ (JamRel σ s) gs (markJammed σ s gs) := by
  unfold markJammed
  apply jamLoop_frame
  intro x hx
  rw [List.mem_singleton] at hx
  rw [hx]
  exact Reaches.refl s

lemma markJammed_complete {σ : List Gear} {s : Nat} {gs : List Gear} :
    ∀ g ∈ markJammed σ s gs, Reaches σ s g.id →
      g.jammed = true ∧ g.rpm = 0 ∧ g.direction = 0 := by
  intro g hg hr
  unfold markJammed at hg
  have hvis : (jamLoop σ (σ.length + 1) gs [s] [s]).2 = reachSet σ s := by
    rw [jamLoop_visited]
    rfl
  refine jamLoop_zero σ (σ.length + 1) gs [s] [s] ?_ ?_ ?_ ?_ g hg ?_
  · intro x hx
    exact hx
  · intro g' _ hgv hgq
    exact absurd hgv hgq
  · intro x hxv hxq
    exact absurd hxv hxq
  · have := bfsMeasure_le σ [s] [s]
    simpa using this
  · rw [hvis]
    exact reaches_mem_reachSet hr

end Gears

namespace Gears

-- --- BFS preservation facts ---

lemma gearIds_of_staticOf {gs σ : List Gear}
    (h : gs.map staticOf = σ.map staticOf) : gearIds gs = gearIds σ := by
  unfold gearIds
  have h1 : gs.map Gear.id = (gs.map staticOf).map Prod.fst := by
    rw [List.map_map]
    rfl
  have h2 : σ.map Gear.id = (σ.map staticOf).map Prod.fst := by
    rw [List.map_map]
    rfl
  rw [h1, h2, h]

lemma bfsMeasure_insert (σ : List Gear) (v q : List Nat) (x : Nat)
    (hx : x ∈ gearIds σ) (hnv : x ∉ v) :
    bfsMeasure σ (x :: v) (q ++ [x]) ≤ bfsMeasure σ v q := by
  unfold bfsMeasure
  simp only [List.toFinset_cons, List.length_append, List.length_singleton]
  have hmem : x ∈ (gearIds σ).toFinset \ v.toFinset := by
    rw [Finset.mem_sdiff]
    exact ⟨List.mem_toFinset.mpr hx, fun hc => hnv (List.mem_toFinset.mp hc)⟩
  have hcard : ((gearIds σ).toFinset \ insert x v.toFinset).card =
      ((gearIds σ).toFinset \ v.toFinset).card - 1 := by
    rw [Finset.sdiff_insert]
    exact Finset.card_erase_of_mem hmem
  have hpos : 0 < ((gearIds σ).toFinset \ v.toFinset).card :=
    Finset.card_pos.mpr ⟨_, hmem⟩
  omega

lemma setMotion_mem {gs : List Gear} {i : Nat} {r : ℚ} {d : Int} {g' : Gear}
    (h : g' ∈ setMotion gs i r d) :
    ∃ g ∈ gs, g'.id = g.id ∧ g'.jammed = g.jammed ∧
      ((g.id ≠ i ∧ g' = g) ∨
        (g.id = i ∧ g' = { g with rpm := r, direction := d })) := by
  unfold setMotion at h
  obtain ⟨g, hg, hge⟩ := List.mem_map.mp h
  by_cases hgi : g.id = i
  · rw [if_pos hgi] at hge
    exact ⟨g, hg, by rw [← hge], by rw [← hge], Or.inr ⟨hgi, hge.symm⟩⟩
  · rw [if_neg hgi] at hge
    exact ⟨g, hg, by rw [← hge], by rw [← hge], Or.inl ⟨hgi, hge.symm⟩⟩

lemma stepFacts_rfl {σ : List Gear} {motorId : Nat} {J0 : Nat → Prop}
    {V0 : List Nat} {nids : List Nat} {st : BfsSt}
    (hinv : BfsInv σ motorId J0 V0 st) :
    StepFacts σ motorId J0 V0 nids st st :=
  ⟨hinv, fun _ hx => hx, fun _ hx => hx, fun _ hx => Or.inl hx,
    fun _ hx => Or.inl hx, fun _ hx => Or.inl hx, le_refl _⟩

lemma stepFacts_comp {σ : List Gear} {motorId : Nat} {J0 : Nat → Prop}
    {V0 : List Nat} {n1 n2 : List Nat} {st st' st'' : BfsSt}
    (h1 : StepFacts σ motorId J0 V0 n1 st st')
    (h2 : StepFacts σ motorId J0 V0 n2 st' st'') :
    StepFacts σ motorId J0 V0 (n1 ++ n2) st st'' := by
  refine ⟨h2.inv, fun x hx => h2.vmono x (h1.vmono x hx),
    fun x hx => h2.qmono x (h1.qmono x hx), ?_, ?_, ?_,
    le_trans h2.meas h1.meas⟩
  · intro x hx
    rcases h2.vsrc x hx with hx | hx
    · rcases h1.vsrc x hx with hx | hx
      · exact Or.inl hx
      · exact Or.inr (List.mem_append_left _ hx)
    · exact Or.inr (List.mem_append_right _ hx)
  · intro x hx
    rcases h2.qsrc x hx with hx | hx
    · rcases h1.qsrc x hx with hx | hx
      · exact Or.inl hx
      · exact Or.inr (List.mem_append_left _ hx)
    · exact Or.inr (List.mem_append_right _ hx)
  · intro x hx
    rcases h2.newq x hx with hx | hx
    · rcases h1.newq x hx with hx | hx
      · exact Or.inl hx
      · exact Or.inr (h2.qmono x hx)
    · exact Or.inr hx

end Gears

namespace Gears

lemma stepLink_pres {σ : List Gear} {motorId : Nat}
    (hm : ∃ m ∈ σ, isMotorType m.type = true ∧ m.id = motorId)
    (hnd : (gearIds σ).Nodup)
    {J0 : Nat → Prop} {V0 : List Nat} {c : Nat}
    (hcreach : Reaches σ motorId c)
    {st : BfsSt} {l : Link} (hl : l ∈ adjOf σ c)
    (hinv : BfsInv σ motorId J0 V0 st) :
    StepFacts σ motorId J0 V0 [l.nid] st (stepLink σ motorId c st l) ∧
    l.nid ∈ (stepLink σ motorId c st l).visited := by
  have hcin : c ∈ gearIds st.gs := by
    rw [gearIds_of_staticOf hinv.sinv]
    exact adjOf_source_mem hl
  have hnin : l.nid ∈ gearIds st.gs := by
    rw [gearIds_of_staticOf hinv.sinv]
    exact adjOf_nid_mem hl
  obtain ⟨current, hfc⟩ := findGear_isSome hcin
  obtain ⟨neighbor, hfn⟩ := findGear_isSome hnin
  obtain ⟨hcmem, hcid⟩ := findGear_spec hfc
  by_cases hv : l.nid ∈ st.visited
  · by_cases hd : neighbor.direction ≠
        (if l.mesh then -current.direction else current.direction)
    · -- jam branch
      have hst : stepLink σ motorId c st l =
          { st with gs := markJammed σ motorId st.gs } := by
        simp only [stepLink, hfc, hfn]
        rw [if_pos hv, if_pos hd]
      rw [hst]
      refine ⟨⟨?_, fun x hx => hx, fun x hx => hx, fun x hx => Or.inl hx,
        fun x hx => Or.inl hx, fun x hx => Or.inl hx, le_refl _⟩, hv⟩
      have hframe := markJammed_frame σ motorId st.gs
      refine ⟨(map_staticOf_markJammed σ motorId st.gs).trans hinv.sinv,
        ⟨?_, ?_⟩, hinv.qsubv, hinv.qids, hinv.qreach, ?_, ?_, hinv.visMono⟩
      · -- p1
        intro g' hg' hj'
        obtain ⟨g, hg, hrel⟩ := forall₂_mem_right hframe hg'
        rcases hrel with heq | ⟨hr, heq⟩
        · subst heq
          exact hinv.jam.p1 g' hg hj'
        · subst heq
          exact ⟨rfl, rfl⟩
      · -- p2
        intro g' hg' hj' l' hl' h' hh' hid'
        obtain ⟨h, hh, hrelh⟩ := forall₂_mem_right hframe hh'
        rcases hrelh with heqh | ⟨hrh, heqh⟩
        · subst heqh
          obtain ⟨g, hg, hrelg⟩ := forall₂_mem_right hframe hg'
          rcases hrelg with heqg | ⟨hrg, heqg⟩
          · subst heqg
            exact hinv.jam.p2 g' hg hj' l' hl' h' hh hid'
          · have hgid : g'.id = g.id := by
              rw [heqg]
              rfl
            have hreach' : Reaches σ motorId h'.id := by
              refine Reaches.tail hrg ⟨l', ?_, hid'.symm⟩
              rw [← hgid]
              exact hl'
            exact (markJammed_complete h' hh' hreach').1
        · subst heqh
          rfl
      · -- unreach
        intro g' hg' hnr
        obtain ⟨g, hg, hrel⟩ := forall₂_mem_right hframe hg'
        rcases hrel with heq | ⟨hr, heq⟩
        · subst heq
          exact hinv.unreach g' hg hnr
        · exfalso
          obtain ⟨m, hmm, hmot, hmid⟩ := hm
          refine hnr ⟨m, hmm, hmot, ?_⟩
          rw [heq]
          show Reaches σ m.id (jamGear g).id
          have : (jamGear g).id = g.id := rfl
          rw [this, hmid]
          exact hr
      · -- jamGrow
        intro g' hg' hj'
        obtain ⟨g, hg, hrel⟩ := forall₂_mem_right hframe hg'
        rcases hrel with heq | ⟨hr, heq⟩
        · subst heq
          exact hinv.jamGrow g' hg hj'
        · right
          rw [heq]
          show Reaches σ motorId (jamGear g).id
          have : (jamGear g).id = g.id := rfl
          rw [this]
          exact hr
    · -- already consistent: no-op
      have hst : stepLink σ motorId c st l = st := by
        simp only [stepLink, hfc, hfn]
        rw [if_pos hv, if_neg hd]
      rw [hst]
      exact ⟨stepFacts_rfl hinv, hv⟩
  · -- unvisited: assign and enqueue
    have hst : stepLink σ motorId c st l =
        ⟨setMotion st.gs l.nid
            (if l.mesh then current.rpm * (current.teeth : ℚ) / (neighbor.teeth : ℚ)
             else current.rpm)
            (if l.mesh then -current.direction else current.direction),
          l.nid :: st.visited, st.queue ++ [l.nid]⟩ := by
      simp only [stepLink, hfc, hfn]
      rw [if_neg hv]
    rw [hst]
    have hreachn : Reaches σ motorId l.nid :=
      Reaches.tail hcreach ⟨l, hl, rfl⟩
    refine ⟨⟨⟨?_, ⟨?_, ?_⟩, ?_, ?_, ?_, ?_, ?_, ?_⟩, ?_, ?_, ?_, ?_, ?_, ?_⟩, ?_⟩
    · exact (map_staticOf_setMotion _ _ _ _).trans hinv.sinv
    · -- p1
      intro g' hg' hj'
      obtain ⟨g, hg, hgid, hgjam, hgcase⟩ := setMotion_mem hg'
      rcases hgcase with ⟨-, heq⟩ | ⟨hgi, heq⟩
      · subst heq
        exact hinv.jam.p1 g' hg hj'
      · have hgj : g.jammed = true := by
          rw [← hgjam]
          exact hj'
        obtain ⟨l'', hl'', hl''c⟩ := edge_symm hnd ⟨l, hl, rfl⟩
        have hcurjam : current.jammed = true := by
          refine hinv.jam.p2 g hg hgj l'' ?_ current hcmem ?_
          · rw [hgi]
            exact hl''
          · rw [hcid, hl''c]
        obtain ⟨hrpm0, hdir0⟩ := hinv.jam.p1 current hcmem hcurjam
        subst heq
        constructor
        · show (if l.mesh then current.rpm * (current.teeth : ℚ) / (neighbor.teeth : ℚ)
             else current.rpm) = 0
          rw [hrpm0]
          simp
        · show (if l.mesh then -current.direction else current.direction) = 0
          rw [hdir0]
          simp
    · -- p2
      intro g' hg' hj' l' hl' h' hh' hid'
      obtain ⟨g, hg, hgid, hgjam, -⟩ := setMotion_mem hg'
      obtain ⟨h, hh, hhid, hhjam, -⟩ := setMotion_mem hh'
      rw [hhjam]
      refine hinv.jam.p2 g hg ?_ l' ?_ h hh ?_
      · rw [← hgjam]
        exact hj'
      · rw [← hgid]
        exact hl'
      · rw [← hhid]
        exact hid'
    · -- qsubv
      intro x hx
      rcases List.mem_append.mp hx with hx | hx
      · exact List.mem_cons_of_mem _ (hinv.qsubv x hx)
      · rw [List.mem_singleton] at hx
        rw [hx]
        exact List.mem_cons_self _ _
    · -- qids
      intro x hx
      rcases List.mem_append.mp hx with hx | hx
      · exact hinv.qids x hx
      · rw [List.mem_singleton] at hx
        rw [hx]
        exact adjOf_nid_mem hl
    · -- qreach
      intro x hx
      rcases List.mem_append.mp hx with hx | hx
      · exact hinv.qreach x hx
      · rw [List.mem_singleton] at hx
        rw [hx]
        exact hreachn
    · -- unreach
      intro g' hg' hnr
      obtain ⟨g, hg, hgid, hgjam, hgcase⟩ := setMotion_mem hg'
      rcases hgcase with ⟨-, heq⟩ | ⟨hgi, heq⟩
      · subst heq
        exact hinv.unreach g' hg hnr
      · exfalso
        obtain ⟨m, hmm, hmot, hmid⟩ := hm
        refine hnr ⟨m, hmm, hmot, ?_⟩
        rw [hgid, hgi, hmid]
        exact hreachn
    · -- jamGrow
      intro g' hg' hj'
      obtain ⟨g, hg, hgid, hgjam, -⟩ := setMotion_mem hg'
      have := hinv.jamGrow g hg (by rw [← hgjam]; exact hj')
      rw [hgid]
      exact this
    · -- visMono
      intro x hx
      exact List.mem_cons_of_mem _ (hinv.visMono x hx)
    · -- vmono
      intro x hx
      exact List.mem_cons_of_mem _ hx
    · -- qmono
      intro x hx
      exact List.mem_append_left _ hx
    · -- vsrc
      intro x hx
      rcases List.mem_cons.mp hx with hx | hx
      · exact Or.inr (by rw [hx]; exact List.mem_singleton_self _)
      · exact Or.inl hx
    · -- qsrc
      intro x hx
      rcases List.mem_append.mp hx with hx | hx
      · exact Or.inl hx
      · exact Or.inr hx
    · -- newq
      intro x hx
      rcases List.mem_cons.mp hx with hx | hx
      · right
        rw [hx]
        exact List.mem_append_right _ (List.mem_singleton_self _)
      · exact Or.inl hx
    · -- measure
      exact bfsMeasure_insert σ st.visited st.queue l.nid
        (adjOf_nid_mem hl) hv
    · -- l.nid visited afterwards
      exact List.mem_cons_self _ _

end Gears

namespace Gears

lemma foldl_stepLink_pres {σ : List Gear} {motorId : Nat}
    (hm : ∃ m ∈ σ, isMotorType m.type = true ∧ m.id = motorId)
    (hnd : (gearIds σ).Nodup)
    {J0 : Nat → Prop} {V0 : List Nat} {c : Nat}
    (hcreach : Reaches σ motorId c) :
    ∀ (L : List Link), (∀ l ∈ L, l ∈ adjOf σ c) →
    ∀ (st : BfsSt), BfsInv σ motorId J0 V0 st →
      StepFacts σ motorId J0 V0 (L.map Link.nid) st
        (L.foldl (stepLink σ motorId c) st) ∧
      (∀ l ∈ L, l.nid ∈ (L.foldl (stepLink σ motorId c) st).visited) := by
  intro L
  induction L with
  | nil =>
      intro _ st hinv
      exact ⟨stepFacts_rfl hinv, fun l hl => absurd hl (List.not_mem_nil l)⟩
  | cons l L ih =>
      intro hL st hinv
      rw [List.foldl_cons]
      obtain ⟨sf1, hn1⟩ := stepLink_pres hm hnd hcreach
        (hL l (List.mem_cons_self _ _)) hinv
      obtain ⟨sf2, hn2⟩ := ih (fun l' hl' => hL l' (List.mem_cons_of_mem _ hl'))
        (stepLink σ motorId c st l) sf1.inv
      refine ⟨?_, ?_⟩
      · have := stepFacts_comp sf1 sf2
        simpa using this
      · intro l' hl'
        rcases List.mem_cons.mp hl' with hl' | hl'
        · rw [hl']
          exact sf2.vmono _ hn1
        · exact hn2 l' hl'

lemma bfsLoop_master {σ : List Gear} {motorId : Nat}
    (hm : ∃ m ∈ σ, isMotorType m.type = true ∧ m.id = motorId)
    (hnd : (gearIds σ).Nodup) {J0 : Nat → Prop} {V0 : List Nat} :
    ∀ (fuel : Nat) (st : BfsSt),
      BfsInv σ motorId J0 V0 st →
      SemiClosed σ st.visited st.queue →
      bfsMeasure σ st.visited st.queue ≤ fuel →
      BfsInv σ motorId J0 V0 (bfsLoop σ motorId fuel st) ∧
      (∀ x ∈ st.visited, x ∈ (bfsLoop σ motorId fuel st).visited) ∧
      (∀ i ∈ (bfsLoop σ motorId fuel st).visited,
        ∀ l ∈ adjOf σ i, l.nid ∈ (bfsLoop σ motorId fuel st).visited) := by
  intro fuel
  induction fuel with
  | zero =>
      intro st hinv hsc hμ
      have hq : st.queue = [] := by
        cases hqe : st.queue with
        | nil => rfl
        | cons a as =>
            rw [hqe, bfsMeasure_cons] at hμ
            omega
      refine ⟨hinv, fun x hx => hx, ?_⟩
      intro i hi l hl
      exact hsc i hi (by rw [hq]; exact List.not_mem_nil i) l hl
  | succ n ih =>
      intro st hinv hsc hμ
      cases hqe : st.queue with
      | nil =>
          have hred : bfsLoop σ motorId (n + 1) st = st := by
            simp only [bfsLoop, hqe]
          rw [hred]
          refine ⟨hinv, fun x hx => hx, ?_⟩
          intro i hi l hl
          exact hsc i hi (by rw [hqe]; exact List.not_mem_nil i) l hl
      | cons c rest =>
          have hred : bfsLoop σ motorId (n + 1) st =
              bfsLoop σ motorId n
                ((adjOf σ c).foldl (stepLink σ motorId c)
                  ⟨st.gs, st.visited, rest⟩) := by
            simp only [bfsLoop, hqe]
          rw [hred]
          have hcreach : Reaches σ motorId c :=
            hinv.qreach c (by rw [hqe]; exact List.mem_cons_self _ _)
          have hinv' : BfsInv σ motorId J0 V0 ⟨st.gs, st.visited, rest⟩ := by
            refine ⟨hinv.sinv, hinv.jam, ?_, ?_, ?_, hinv.unreach,
              hinv.jamGrow, hinv.visMono⟩
            · intro x hx
              exact hinv.qsubv x (by rw [hqe]; exact List.mem_cons_of_mem _ hx)
            · intro x hx
              exact hinv.qids x (by rw [hqe]; exact List.mem_cons_of_mem _ hx)
            · intro x hx
              exact hinv.qreach x (by rw [hqe]; exact List.mem_cons_of_mem _ hx)
          obtain ⟨sf, hlinks⟩ := foldl_stepLink_pres hm hnd hcreach
            (adjOf σ c) (fun l hl => hl) ⟨st.gs, st.visited, rest⟩ hinv'
          have hsc1 : SemiClosed σ
              ((adjOf σ c).foldl (stepLink σ motorId c)
                ⟨st.gs, st.visited, rest⟩).visited
              ((adjOf σ c).foldl (stepLink σ motorId c)
                ⟨st.gs, st.visited, rest⟩).queue := by
            intro x hx hxq l' hl'
            rcases sf.newq x hx with hxv | hxq'
            · by_cases hxc : x = c
              · subst hxc
                exact hlinks l' hl'
              · have hxrest : x ∉ rest := fun hr => hxq (sf.qmono x hr)
                have hxq0 : x ∉ st.queue := by
                  rw [hqe]
                  intro hc
                  rcases List.mem_cons.mp hc with hc | hc
                  · exact hxc hc
                  · exact hxrest hc
                exact sf.vmono _ (hsc x hxv hxq0 l' hl')
            · exact absurd hxq' hxq
          have hμ1 : bfsMeasure σ
              ((adjOf σ c).foldl (stepLink σ motorId c)
                ⟨st.gs, st.visited, rest⟩).visited
              ((adjOf σ c).foldl (stepLink σ motorId c)
                ⟨st.gs, st.visited, rest⟩).queue ≤ n := by
            have h1 := sf.meas
            rw [hqe, bfsMeasure_cons] at hμ
            dsimp only at h1
            omega
          obtain ⟨k1, k2, k3⟩ := ih _ sf.inv hsc1 hμ1
          refine ⟨k1, ?_, k3⟩
          intro x hx
          exact k2 x (sf.vmono x hx)

end Gears

namespace Gears

lemma runMotor_pres {σ : List Gear} (hnd : (gearIds σ).Nodup)
    (p : List Gear × List Nat) (m : Gear) (hmem : m ∈ σ)
    (hmot : isMotorType m.type = true) (hinv : MotorInv σ p) :
    MotorInv σ (runMotor σ p m) := by
  unfold runMotor
  by_cases hv : m.id ∈ p.2
  · rw [if_pos hv]
    exact hinv
  · rw [if_neg hv]
    dsimp only
    have hm : ∃ m' ∈ σ, isMotorType m'.type = true ∧ m'.id = m.id :=
      ⟨m, hmem, hmot, rfl⟩
    have hinv0 : BfsInv σ m.id
        (fun i => ∃ g ∈ p.1, g.id = i ∧ g.jammed = true) (m.id :: p.2)
        ⟨setMotion p.1 m.id (getMotorRpm m.type) 1, m.id :: p.2, [m.id]⟩ := by
      refine ⟨(map_staticOf_setMotion _ _ _ _).trans hinv.sinv, ⟨?_, ?_⟩,
        ?_, ?_, ?_, ?_, ?_, fun x hx => hx⟩
      · -- p1
        intro g' hg' hj'
        obtain ⟨g, hg, hgid, hgjam, hgcase⟩ := setMotion_mem hg'
        rcases hgcase with ⟨-, heq⟩ | ⟨hgi, heq⟩
        · subst heq
          exact hinv.jam.p1 g' hg hj'
        · exfalso
          have hgj : g.jammed = true := by
            rw [← hgjam]
            exact hj'
          have := hinv.jamVis g hg hgj
          rw [hgi] at this
          exact hv this
      · -- p2
        intro g' hg' hj' l' hl' h' hh' hid'
        obtain ⟨g, hg, hgid, hgjam, -⟩ := setMotion_mem hg'
        obtain ⟨h, hh, hhid, hhjam, -⟩ := setMotion_mem hh'
        rw [hhjam]
        refine hinv.jam.p2 g hg ?_ l' ?_ h hh ?_
        · rw [← hgjam]
          exact hj'
        · rw [← hgid]
          exact hl'
        · rw [← hhid]
          exact hid'
      · -- qsubv
        intro x hx
        rw [List.mem_singleton] at hx
        rw [hx]
        exact List.mem_cons_self _ _
      · -- qids
        intro x hx
        rw [List.mem_singleton] at hx
        rw [hx]
        exact List.mem_map_of_mem Gear.id hmem
      · -- qreach
        intro x hx
        rw [List.mem_singleton] at hx
        rw [hx]
        exact Reaches.refl m.id
      · -- unreach
        intro g' hg' hnr
        obtain ⟨g, hg, hgid, hgjam, hgcase⟩ := setMotion_mem hg'
        rcases hgcase with ⟨-, heq⟩ | ⟨hgi, heq⟩
        · subst heq
          exact hinv.unreach g' hg hnr
        · exfalso
          refine hnr ⟨m, hmem, hmot, ?_⟩
          rw [hgid, hgi]
          exact Reaches.refl m.id
      · -- jamGrow
        intro g' hg' hj'
        obtain ⟨g, hg, hgid, hgjam, -⟩ := setMotion_mem hg'
        left
        refine ⟨g, hg, hgid.symm, ?_⟩
        rw [← hgjam]
        exact hj'
    have hsc0 : SemiClosed σ (m.id :: p.2) [m.id] := by
      intro x hx hxq l hl
      rcases List.mem_cons.mp hx with hx | hx
      · exfalso
        apply hxq
        rw [hx]
        exact List.mem_singleton_self _
      · exact List.mem_cons_of_mem _ (hinv.closed x hx l hl)
    have hμ0 : bfsMeasure σ (m.id :: p.2) [m.id] ≤ σ.length + 1 := by
      have := bfsMeasure_le σ (m.id :: p.2) [m.id]
      simpa using this
    obtain ⟨k1, k2, k3⟩ := bfsLoop_master hm hnd (σ.length + 1)
      ⟨setMotion p.1 m.id (getMotorRpm m.type) 1, m.id :: p.2, [m.id]⟩
      hinv0 hsc0 hμ0
    refine ⟨k1.sinv, k1.jam, k3, ?_, k1.unreach⟩
    -- jamVis
    intro g' hg' hj'
    rcases k1.jamGrow g' hg' hj' with ⟨g, hg, hgid, hgjam⟩ | hr
    · have := hinv.jamVis g hg hgjam
      rw [hgid] at this
      exact k2 g'.id (List.mem_cons_of_mem _ this)
    · have hmidv : m.id ∈ (bfsLoop σ m.id (σ.length + 1)
          ⟨setMotion p.1 m.id (getMotorRpm m.type) 1, m.id :: p.2, [m.id]⟩).visited :=
        k2 m.id (List.mem_cons_self _ _)
      exact reach_closed k3 hmidv hr

lemma foldl_runMotor_pres {σ : List Gear} (hnd : (gearIds σ).Nodup) :
    ∀ (ms : List Gear), (∀ m ∈ ms, m ∈ σ ∧ isMotorType m.type = true) →
      ∀ (p : List Gear × List Nat), MotorInv σ p →
        MotorInv σ (ms.foldl (runMotor σ) p) := by
  intro ms
  induction ms with
  | nil => intro _ p hp; exact hp
  | cons m ms ih =>
      intro hms p hp
      rw [List.foldl_cons]
      obtain ⟨hmem, hmot⟩ := hms m (List.mem_cons_self _ _)
      exact ih (fun m' hm' => hms m' (List.mem_cons_of_mem _ hm')) _
        (runMotor_pres hnd p m hmem hmot hp)

lemma gearIds_resetAll (gs : List Gear) : gearIds (resetAll gs) = gearIds gs := by
  unfold gearIds resetAll
  rw [List.map_map]
  rfl

lemma propagate_master (gs : List Gear) (hnd : (gearIds gs).Nodup) :
    JamInv (resetAll gs) (propagateMotion gs) ∧
    (∀ g ∈ propagateMotion gs, ¬ MotorReach (resetAll gs) g.id →
      g.rpm = 0 ∧ g.direction = 0 ∧ g.jammed = false) := by
  have hnd' : (gearIds (resetAll gs)).Nodup := by
    rw [gearIds_resetAll]
    exact hnd
  have hinit : MotorInv (resetAll gs) (resetAll gs, []) := by
    refine ⟨rfl, ⟨?_, ?_⟩, ?_, ?_, ?_⟩
    · intro g hg hj
      obtain ⟨g0, -, heq⟩ := List.mem_map.mp hg
      rw [← heq] at hj
      cases hj
    · intro g hg hj
      obtain ⟨g0, -, heq⟩ := List.mem_map.mp hg
      rw [← heq] at hj
      cases hj
    · intro x hx
      cases hx
    · intro g hg hj
      obtain ⟨g0, -, heq⟩ := List.mem_map.mp hg
      rw [← heq] at hj
      cases hj
    · intro g hg _
      obtain ⟨g0, -, heq⟩ := List.mem_map.mp hg
      rw [← heq]
      exact ⟨rfl, rfl, rfl⟩
  have hmots : ∀ m ∈ (resetAll gs).filter (fun g => isMotorType g.type),
      m ∈ resetAll gs ∧ isMotorType m.type = true := by
    intro m hm
    have h1 := List.mem_filter.mp hm
    exact ⟨h1.1, by simpa using h1.2⟩
  have hfold := foldl_runMotor_pres hnd'
    ((resetAll gs).filter (fun g => isMotorType g.type)) hmots
    (resetAll gs, []) hinit
  have heq : propagateMotion gs =
      (((resetAll gs).filter (fun g => isMotorType g.type)).foldl
        (runMotor (resetAll gs)) (resetAll gs, [])).1 := rfl
  rw [heq]
  exact ⟨hfold.jam, hfold.unreach⟩

end Gears

namespace Gears

-- --- Transfer between the input list and the reset list ---

lemma reset_findGear (gs : List Gear) (i : Nat) :
    findGear (resetAll gs) i = (findGear gs i).map resetGear := by
  unfold findGear resetAll
  rw [List.find?_map]
  have h : ((fun g : Gear => decide (g.id = i)) ∘ resetGear) =
      fun g : Gear => decide (g.id = i) := by
    funext g
    rfl
  rw [h]

lemma reset_adjOf (gs : List Gear) (i : Nat) :
    adjOf (resetAll gs) i = adjOf gs i := by
  unfold adjOf
  rw [reset_findGear]
  cases hf : findGear gs i with
  | none => rfl
  | some g =>
      simp only [Option.map_some']
      show (resetAll gs).filterMap _ = _
      unfold resetAll
      rw [List.filterMap_map]
      apply List.filterMap_congr
      intro h _
      rfl

lemma reaches_congr {σ σ' : List Gear}
    (hadj : ∀ k, adjOf σ k = adjOf σ' k) {i j : Nat}
    (h : Reaches σ i j) : Reaches σ' i j := by
  induction h with
  | refl => exact Reaches.refl i
  | tail hr he ih =>
      obtain ⟨l, hl, hlk⟩ := he
      exact Reaches.tail ih ⟨l, (hadj _) ▸ hl, hlk⟩

lemma reaches_resetAll {gs : List Gear} {i j : Nat} :
    Reaches (resetAll gs) i j ↔ Reaches gs i j :=
  ⟨reaches_congr (fun k => reset_adjOf gs k),
    reaches_congr (fun k => (reset_adjOf gs k).symm)⟩

lemma motorReach_resetAll (gs : List Gear) (i : Nat) :
    MotorReach (resetAll gs) i ↔
      ∃ m ∈ gs, isMotorType m.type = true ∧ Reaches gs m.id i := by
  constructor
  · rintro ⟨m', hm', hmot, hr⟩
    obtain ⟨m, hm, heq⟩ := List.mem_map.mp hm'
    refine ⟨m, hm, ?_, ?_⟩
    · rw [← heq] at hmot
      exact hmot
    · have hid : m'.id = m.id := by
        rw [← heq]
        rfl
      rw [hid] at hr
      exact reaches_resetAll.mp hr
  · rintro ⟨m, hm, hmot, hr⟩
    exact ⟨resetGear m, List.mem_map_of_mem resetGear hm, hmot,
      reaches_resetAll.mpr hr⟩

-- --- C3 ---

/-- C3: after every run of `propagateMotion` (on a collection with
distinct ids), every gear whose jammed flag is set has rpm 0 and
direction 0 - the BFS keeps writing into a component `markJammed` has
zeroed, but only ever writes zeros there, because the jammed component
is adjacency-closed and the values it propagates are read from zeroed
gears. -/
theorem C3_jammed_zero (gs : List Gear) (hnd : (gs.map Gear.id).Nodup) :
    ∀ g ∈ propagateMotion gs, g.jammed = true →
      g.rpm = 0 ∧ g.direction = 0 :=
  fun g hg hj => (propagate_master gs hnd).1.p1 g hg hj

/-- Witness for C3 at a concrete input: the jammed motor of the mesh
triangle ends with rpm 0 and direction 0. -/
theorem C3_jammed_zero_witness :
    (⟨1, .motor, 12, 0, 0, 0, 0, true, 1⟩ : Gear).rpm = 0 ∧
    (⟨1, .motor, 12, 0, 0, 0, 0, true, 1⟩ : Gear).direction = 0 :=
  C3_jammed_zero triGears (by decide) ⟨1, .motor, 12, 0, 0, 0, 0, true, 1⟩
    (by with_unfolding_all decide) rfl

-- --- C2 ---

/-- C2: when a direction conflict jams a gear, the whole connected
component is jammed and zeroed: any gear connected (through mesh/axle
edges of the collection) to a jammed gear is itself jammed with rpm 0
and direction 0.  The concrete mesh triangle (motor meshed to A and B,
A meshed to B) jams all three gears. -/
theorem C2_jam_floods_component :
    (∀ (gs : List Gear), (gs.map Gear.id).Nodup →
      ∀ g ∈ propagateMotion gs, g.jammed = true →
      ∀ h ∈ propagateMotion gs, Reaches gs g.id h.id →
        h.jammed = true ∧ h.rpm = 0 ∧ h.direction = 0) ∧
    (propagateMotion triGears).map dyn =
      [(1, 0, 0, true), (2, 0, 0, true), (3, 0, 0, true)] := by
  constructor
  · intro gs hnd g hg hj h hh hr
    obtain ⟨hjam, -⟩ := propagate_master gs hnd
    have hr' : Reaches (resetAll gs) g.id h.id := reaches_resetAll.mpr hr
    have hidseq : gearIds (propagateMotion gs) = gearIds (resetAll gs) := by
      rw [gearIds_resetAll]
      show (propagateMotion gs).map Gear.id = gs.map Gear.id
      exact propagateMotion_map_id gs
    have key : ∀ j, Reaches (resetAll gs) g.id j →
        ∀ h' ∈ propagateMotion gs, h'.id = j → h'.jammed = true := by
      intro j hrj
      induction hrj with
      | refl =>
          intro h' hh' hid
          have hout : ((propagateMotion gs).map Gear.id).Nodup := by
            rw [propagateMotion_map_id]
            exact hnd
          have heq : h' = g := List.inj_on_of_nodup_map hout hh' hg hid
          rw [heq]
          exact hj
      | tail hr0 he ih =>
          rename_i jm km
          intro h' hh' hid
          obtain ⟨l, hl, hlk⟩ := he
          have hjmem : jm ∈ gearIds (propagateMotion gs) := by
            rw [hidseq]
            exact adjOf_source_mem hl
          obtain ⟨gj, hgj, hgjid⟩ := List.mem_map.mp hjmem
          have hgjjam := ih gj hgj hgjid
          refine hjam.p2 gj hgj hgjjam l ?_ h' hh' ?_
          · rw [hgjid]
            exact hl
          · rw [hid, ← hlk]
    have hhjam : h.jammed = true := key h.id hr' h hh rfl
    exact ⟨hhjam, hjam.p1 h hh hhjam⟩
  · with_unfolding_all decide

/-- Witness for C2 at a concrete input: in the jammed triangle, gear 2
is connected to the jammed motor, so it is jammed with rpm 0 and
direction 0. -/
theorem C2_jam_floods_component_witness :
    (⟨2, .gear, 12, 60, 0, 0, 0, true, 1⟩ : Gear).jammed = true ∧
    (⟨2, .gear, 12, 60, 0, 0, 0, true, 1⟩ : Gear).rpm = 0 ∧
    (⟨2, .gear, 12, 60, 0, 0, 0, true, 1⟩ : Gear).direction = 0 :=
  C2_jam_floods_component.1 triGears (by decide)
    ⟨1, .motor, 12, 0, 0, 0, 0, true, 1⟩ (by with_unfolding_all decide) rfl
    ⟨2, .gear, 12, 60, 0, 0, 0, true, 1⟩ (by with_unfolding_all decide)
    (Reaches.tail (Reaches.refl 1) ⟨⟨2, true⟩, by with_unfolding_all decide, rfl⟩)

-- --- C4 ---

/-- C4: a gear with no mesh/axle path to any motor-kind gear keeps
direction 0, rpm 0 and jammed = false after `propagateMotion`; in
particular deleting the sole bridge between the motor and gear 3 of
`chain3` and re-propagating leaves gear 3 at rpm 0, direction 0, not
jammed. -/
theorem C4_unreachable_zero :
    (∀ (gs : List Gear), (gs.map Gear.id).Nodup →
      ∀ g ∈ propagateMotion gs,
        (¬ ∃ m ∈ gs, isMotorType m.type = true ∧ Reaches gs m.id g.id) →
        g.rpm = 0 ∧ g.direction = 0 ∧ g.jammed = false) ∧
    (deleteGear ⟨propagateMotion chain3, 4⟩ 2).gears.map dyn =
      [(1, 60, 1, false), (3, 0, 0, false)] := by
  constructor
  · intro gs hnd g hg hn
    refine (propagate_master gs hnd).2 g hg ?_
    intro hmr
    exact hn ((motorReach_resetAll gs g.id).mp hmr)
  · with_unfolding_all decide

/-- Witness for C4 at a concrete input: with only the motor (id 1) and
the far gear (id 3) left, gear 3 has no path to the motor and stays at
rpm 0, direction 0, not jammed. -/
theorem C4_unreachable_zero_witness :
    (⟨3, .gear, 12, 120, 0, 0, 0, false, 1⟩ : Gear).rpm = 0 ∧
    (⟨3, .gear, 12, 120, 0, 0, 0, false, 1⟩ : Gear).direction = 0 ∧
    (⟨3, .gear, 12, 120, 0, 0, 0, false, 1⟩ : Gear).jammed = false :=
  C4_unreachable_zero.1 [mkGear 1 .motor 12 0 0 1, mkGear 3 .gear 12 120 0 1]
    (by decide)
    ⟨3, .gear, 12, 120, 0, 0, 0, false, 1⟩
    (by with_unfolding_all decide)
    (by
      rintro ⟨m, hm, hmot, hr⟩
      have hm' : m = mkGear 1 .motor 12 0 0 1 ∨ m = mkGear 3 .gear 12 120 0 1 := by
        simpa using hm
      rcases hm' with rfl | rfl
      · have h3 := reaches_mem_reachSet hr
        revert h3
        with_unfolding_all decide
      · revert hmot
        with_unfolding_all decide)

end Gears
